import Mathlib

/-!
Verification of the tinykv epoch-protection framework (FASTER-style
LightEpoch), its hash-bucket-entry bit packing and its aligned allocator.

The repository contains two copies of the LightEpoch implementation:
 * src/unnamed/part_000 (the refined copy, with the tableUsed reservation
   array, FindAndReserveEmptyEntry/ReleaseEntry and MarkAndCheckIfFinished);
 * src/faster/epoch.go lines 87-412 (an older copy whose table is a value
   slice []epochEntry and whose ReentrantProtect / SpinWaitForSafeToReclaim /
   IsSafeToReclaim bodies differ as modelled in namespace EpochGo below).

The shared state `Faster.LightEpoch` below embeds the LightEpoch of
src/faster/epoch.go (whose `table []epochEntry` is a slice of distinct
per-slot values) together with part_000's `tableUsed []int32` reservation
array; the operation bodies that are identical in the two files are embedded
once.  part_000's constructor initialises its `[]*epochEntry` pointer table
so that all pointers alias a single buffer entry; that pointer table is
modelled separately in namespace PartZeroTable.

Modelling conventions:
 * uint64/uint32 counters are modelled as Nat.  The epoch counters are only
   ever incremented one at a time, so 64-bit wrap-around is not modelled;
   places where Go wrap-around could differ are noted at the definition.
 * each exported operation of the Go code is an atomic step of a sequential
   interleaving semantics ("any number of threads" = any interleaving of
   these steps).
 * a drain-list slot is Free or Pending; the transient Locked state of the
   Go word protocol is internal to one atomic operation and never visible
   between steps.  Callbacks are opaque and modelled by Nat identifiers; a
   ghost field `fired` records the executed callback ids in order.
-/

namespace Faster

/-- Phase constants of src/unnamed/part_000 lines 46-60. -/
def PrepareIndexCheckPhase : Nat := 0x0

def InProgressPhase : Nat := 0x3

def RestPhase : Nat := 0x6

/-- epochEntry (src/unnamed/part_000 lines 62-70 and src/faster/epoch.go
lines 127-135): localCurrentEpoch, reentrant counter and phase marker.
The cache-line padding has no observable content and is not modelled. -/
structure EpochEntry where
  localCurrentEpoch : Nat
  reentrant : Nat
  atomicPhaseFinished : Nat
  deriving Repr, DecidableEq

/-- initialize (part_000 lines 72-77). -/
def EpochEntry.init : EpochEntry :=
  { localCurrentEpoch := 0, reentrant := 0, atomicPhaseFinished := RestPhase }

/-- A drain-list slot: the three-state word protocol of epochAction
(part_000 lines 88-146) seen between atomic operations.  `pend trigger id`
is a registered action with trigger epoch `trigger` and callback id `id`;
`free` is the epochFree state.  The Go sentinel epochFree = 2^64-1 compares
`trigger <= safe` as false against every reachable safe epoch, which the
`free` case reproduces by skipping the slot. -/
inductive ActionSlot where
  | free : ActionSlot
  | pend (trigger : Nat) (id : Nat) : ActionSlot
  deriving Repr, DecidableEq

/-- drainListSize (part_000 line 154). -/
def drainListSize : Nat := 256

/-- Unprotected sentinel (part_000 line 152). -/
def Unprotected : Nat := 0

/-- LightEpoch (src/faster/epoch.go lines 222-236 plus part_000's tableUsed,
lines 158-173).  `fired` is a ghost trace of executed callback ids. -/
structure LightEpoch where
  currentEpoch : Nat
  safeToReclaimEpoch : Nat
  table : List EpochEntry
  tableUsed : List Nat
  entryNum : Nat
  drainCount : Nat
  drainList : List ActionSlot
  fired : List Nat
  deriving Repr, DecidableEq

/-- NewLightEpoch (part_000 lines 176-204, epoch.go lines 239-255): a table
of size+2 initialised entries, epoch counter 1, safe epoch 0, all drain
slots free. -/
def NewLightEpoch (size : Nat) : LightEpoch :=
  { currentEpoch := 1
    safeToReclaimEpoch := 0
    table := List.replicate (size + 2) EpochEntry.init
    tableUsed := List.replicate (size + 2) 0
    entryNum := size
    drainCount := 0
    drainList := List.replicate drainListSize ActionSlot.free
    fired := [] }

/-- Read of epoch.table[i].  Out-of-range reads (which panic in Go and never
happen in the claims considered) yield the initial entry. -/
def LightEpoch.entry (st : LightEpoch) (i : Nat) : EpochEntry :=
  st.table.getD i EpochEntry.init

def LightEpoch.setEntry (st : LightEpoch) (i : Nat) (e : EpochEntry) : LightEpoch :=
  { st with table := st.table.set i e }

/-- Protect (part_000 lines 232-236): store the current epoch into the
slot's localCurrentEpoch and return it. -/
def Protect (st : LightEpoch) (entryIdx : Nat) : LightEpoch × Nat :=
  let e := st.entry entryIdx
  (st.setEntry entryIdx { e with localCurrentEpoch := st.currentEpoch }, st.currentEpoch)

/-- Unprotect (part_000 lines 267-269): reset localCurrentEpoch to the
Unprotected sentinel 0. -/
def Unprotect (st : LightEpoch) (entryIdx : Nat) : LightEpoch :=
  let e := st.entry entryIdx
  st.setEntry entryIdx { e with localCurrentEpoch := Unprotected }

/-- ReentrantProtect (part_000 lines 249-259): increment the reentrant
counter, then record the current epoch only if the slot was unprotected.
(The Go code increments in place and then tests localCurrentEpoch; the
increment does not touch localCurrentEpoch, so testing before or after it
is the same.) -/
def ReentrantProtect (st : LightEpoch) (entryIdx : Nat) : LightEpoch × Nat :=
  let e := st.entry entryIdx
  if e.localCurrentEpoch ≠ Unprotected then
    (st.setEntry entryIdx { e with reentrant := e.reentrant + 1 }, e.localCurrentEpoch)
  else
    (st.setEntry entryIdx
      { e with reentrant := e.reentrant + 1, localCurrentEpoch := st.currentEpoch },
     st.currentEpoch)

/-- ReentrantUnprotect (part_000 lines 271-277): decrement the counter and
clear localCurrentEpoch when it reaches 0.  (Go decrements a uint32; on the
out-of-protocol call with reentrant = 0 the Go counter would wrap to 2^32-1
instead; the nesting discipline, and every use below, has reentrant >= 1.) -/
def ReentrantUnprotect (st : LightEpoch) (entryIdx : Nat) : LightEpoch :=
  let e := st.entry entryIdx
  let r := e.reentrant - 1
  if r = 0 then
    st.setEntry entryIdx { e with reentrant := r, localCurrentEpoch := Unprotected }
  else
    st.setEntry entryIdx { e with reentrant := r }

/-- IsProtected (part_000 lines 262-264). -/
def IsProtected (st : LightEpoch) (entryIdx : Nat) : Bool :=
  decide ((st.entry entryIdx).localCurrentEpoch ≠ Unprotected)

/-- The scan loop of ComputeNewSafeToReclaimEpoch (part_000 lines 338-343):
fold the running minimum over a list of table indices. -/
def oldestScan (st : LightEpoch) : List Nat → Nat → Nat
  | [], acc => acc
  | i :: rest, acc =>
    let e := (st.entry i).localCurrentEpoch
    oldestScan st rest (if e ≠ Unprotected ∧ e < acc then e else acc)

/-- ComputeNewSafeToReclaimEpoch (part_000 lines 336-346, epoch.go lines
361-371): scan slots i = 1 .. entryNum (the Go loop `for i := 1;
i <= entryNum; i++`), store oldestOngoingCall - 1 and return it.  In every
reachable state currentEpoch >= 1 so the Go uint64 subtraction does not
wrap; Nat truncated subtraction is used. -/
def ComputeNewSafeToReclaimEpoch (st : LightEpoch) (currentEpoch : Nat) :
    LightEpoch × Nat :=
  let o := oldestScan st (List.range' 1 st.entryNum) currentEpoch
  ({ st with safeToReclaimEpoch := o - 1 }, o - 1)

/-- The successful tryPop (part_000 lines 105-118) of drain slot i holding
callback id, together with Drain's decrement of drainCount: the slot is
released to free, the callback runs (id is appended to the ghost trace),
and the pending-action count drops by one.  (The Go decrement
AddUint32(^uint32(0)) wraps mod 2^32; a pop only succeeds on a pending
slot, and drainCount >= 1 whenever a pending slot exists in every
reachable state, so Nat subtraction agrees.) -/
def popAt (i id : Nat) (st : LightEpoch) : LightEpoch :=
  { st with
    drainList := st.drainList.set i ActionSlot.free
    fired := st.fired ++ [id]
    drainCount := st.drainCount - 1 }

/-- The scan loop of Drain (part_000 lines 281-291) over a list of drain
indices: pop each pending action whose trigger epoch is <= safe and stop
early when the decremented count reaches 0. -/
def drainScan (safe : Nat) : List Nat → LightEpoch → LightEpoch
  | [], st => st
  | i :: rest, st =>
    match st.drainList.getD i ActionSlot.free with
    | ActionSlot.pend t id =>
      if t ≤ safe then
        if st.drainCount - 1 = 0 then popAt i id st
        else drainScan safe rest (popAt i id st)
      else drainScan safe rest st
    | ActionSlot.free => drainScan safe rest st

/-- Drain (part_000 lines 279-292, epoch.go lines 303-316): recompute the
safe-to-reclaim epoch, then scan the whole drain list once. -/
def Drain (st : LightEpoch) (nextEpoch : Nat) : LightEpoch :=
  let st1 := (ComputeNewSafeToReclaimEpoch st nextEpoch).1
  drainScan st1.safeToReclaimEpoch (List.range drainListSize) st1

/-- BumpCurrentEpoch (part_000 lines 295-301): increment the global epoch;
drain if any actions are pending; return the new epoch. -/
def BumpCurrentEpoch (st : LightEpoch) : LightEpoch × Nat :=
  let st1 := { st with currentEpoch := st.currentEpoch + 1 }
  let nextEpoch := st1.currentEpoch
  (if 0 < st1.drainCount then Drain st1 nextEpoch else st1, nextEpoch)

/-- ProtectAndDrain (part_000 lines 240-247). -/
def ProtectAndDrain (st : LightEpoch) (entryIdx : Nat) : LightEpoch × Nat :=
  let p := Protect st entryIdx
  (if 0 < p.1.drainCount then Drain p.1 p.2 else p.1, p.2)

/-- The registration scan of BumpCurrentEpochWithCallback (part_000 lines
307-331): the first drain-list index whose slot is free (tryPush target) or
whose trigger epoch is <= the cached safe epoch (trySwap target).  When no
index qualifies the Go loop keeps rescanning (logging a slowdown warning
every 500 passes); sequentially the state never changes in that loop, which
the model represents by returning none. -/
def findActionSlot (st : LightEpoch) : Option Nat :=
  (List.range drainListSize).find? fun i =>
    match st.drainList.getD i ActionSlot.free with
    | ActionSlot.free => true
    | ActionSlot.pend t _ => decide (t ≤ st.safeToReclaimEpoch)

/-- The registration step of BumpCurrentEpochWithCallback (part_000 lines
307-331): at the first qualifying index, either tryPush into a free slot
(incrementing drainCount) or trySwap into a slot whose action is already
safe, executing the displaced action. -/
def registerAction (st : LightEpoch) (priorEpoch id : Nat) : LightEpoch :=
  match findActionSlot st with
  | some i =>
    match st.drainList.getD i ActionSlot.free with
    | ActionSlot.free =>
      { st with
        drainList := st.drainList.set i (ActionSlot.pend priorEpoch id)
        drainCount := st.drainCount + 1 }
    | ActionSlot.pend _ oldId =>
      { st with
        drainList := st.drainList.set i (ActionSlot.pend priorEpoch id)
        fired := st.fired ++ [oldId] }
  | none => st

/-- BumpCurrentEpochWithCallback (part_000 lines 305-333): bump the epoch,
then register (callback id, trigger = priorEpoch) in the drain list.
Returns priorEpoch + 1 = the bumped epoch. -/
def BumpCurrentEpochWithCallback (st : LightEpoch) (id : Nat) : LightEpoch × Nat :=
  let b := BumpCurrentEpoch st
  (registerAction b.1 (b.2 - 1) id, (b.2 - 1) + 1)

/-- IsSafeToReclaim (part_000 lines 358-360): expectedEpoch <= cached safe
epoch. -/
def IsSafeToReclaim (st : LightEpoch) (expectedEpoch : Nat) : Bool :=
  decide (expectedEpoch ≤ st.safeToReclaimEpoch)

/-- SpinWaitForSafeToReclaim (part_000 lines 349-355), with explicit gas:
each iteration recomputes the safe epoch and exits once the target is
reached; `none` means the gas ran out before the loop exited. -/
def spinWaitGas : Nat → LightEpoch → Nat → Nat → Option LightEpoch
  | 0, _, _, _ => none
  | gas + 1, st, currentEpoch, target =>
    let c := ComputeNewSafeToReclaimEpoch st currentEpoch
    if target ≤ c.2 then some c.1 else spinWaitGas gas c.1 currentEpoch target

/-- MarkAndCheckIfFinished (part_000 lines 370-382; identical body named
FinishThreadPhase in epoch.go lines 394-406): record `phase` into the
slot's marker, then scan the Go loop `for i := 1; i < entryNum; i++`
(indices 1 .. entryNum-1) and report false if some scanned protected slot
has a different marker. -/
def MarkAndCheckIfFinished (st : LightEpoch) (entryIdx phase : Nat) :
    LightEpoch × Bool :=
  let e := st.entry entryIdx
  let st1 := st.setEntry entryIdx { e with atomicPhaseFinished := phase }
  (st1, (List.range' 1 (st.entryNum - 1)).all fun i =>
    ((st1.entry i).localCurrentEpoch == 0) || ((st1.entry i).atomicPhaseFinished == phase))

/-- The probe sequence of FindAndReserveEmptyEntry (part_000 line 212):
probe number i touches slot 1 + (startIdx + i) % entryNum. -/
def probeIdx (n startIdx i : Nat) : Nat :=
  1 + (startIdx + i) % n

/-- FindAndReserveEmptyEntry (part_000 lines 207-223), with the random
start index as a parameter.  One inner pass CASes each of the entryNum
probed slots from 0 (free) to 1 (used) and returns the first success; the
table does not change during the call, so later passes repeat the first,
and when no slot is free the iteration counter reaches 4*entryNum after
the fourth pass, exceeds the 3*entryNum bound, and the Go code panics:
`none` models that panic. -/
def FindAndReserveEmptyEntry (st : LightEpoch) (startIdx : Nat) :
    Option (Nat × LightEpoch) :=
  match (List.range st.entryNum).find? fun i =>
      st.tableUsed.getD (probeIdx st.entryNum startIdx i) 1 == 0 with
  | some i =>
    let idx := probeIdx st.entryNum startIdx i
    some (idx, { st with tableUsed := st.tableUsed.set idx 1 })
  | none => none

/-- The atomic steps whose sequential interleavings model multi-threaded
use of a LightEpoch. -/
inductive Op where
  | protect (i : Nat) : Op
  | unprotect (i : Nat) : Op
  | bump : Op
  | drain : Op
  | protectAndDrain (i : Nat) : Op
  | bumpWithCallback (id : Nat) : Op
  deriving Repr, DecidableEq

/-- One step: the Drain caller passes the current epoch, as BumpCurrentEpoch
and ProtectAndDrain do at their call sites. -/
def stepOp (st : LightEpoch) : Op → LightEpoch
  | Op.protect i => (Protect st i).1
  | Op.unprotect i => Unprotect st i
  | Op.bump => (BumpCurrentEpoch st).1
  | Op.drain => Drain st st.currentEpoch
  | Op.protectAndDrain i => (ProtectAndDrain st i).1
  | Op.bumpWithCallback id => (BumpCurrentEpochWithCallback st id).1

def applyOps (st : LightEpoch) (ops : List Op) : LightEpoch :=
  ops.foldl stepOp st

/-! ## List access helper lemmas -/

theorem getD_set_ne {α : Type} (l : List α) (i j : Nat) (a d : α) (h : i ≠ j) :
    (l.set i a).getD j d = l.getD j d := by
  simp [List.getD_eq_getElem?_getD, List.getElem?_set_ne h]

theorem getD_set_self {α : Type} (l : List α) (i : Nat) (a d : α)
    (h : i < l.length) : (l.set i a).getD i d = a := by
  simp [List.getD_eq_getElem?_getD, List.getElem?_set_self, List.getElem?_eq_getElem, h]

theorem getD_replicate {α : Type} (n i : Nat) (a d : α) (h : i < n) :
    (List.replicate n a).getD i d = a := by
  simp [List.getD_eq_getElem?_getD, List.getElem?_replicate, h]

theorem lt_length_of_getD_ne_default {α : Type} (l : List α) (i : Nat) (d : α)
    (h : l.getD i d ≠ d) : i < l.length := by
  by_contra hc
  exact h (List.getD_eq_default l d (by omega))

/-! ## The safety invariant -/

/-- The safety invariant of a LightEpoch: the epoch counter is positive,
the cached safe-to-reclaim epoch is strictly below it, and the cached safe
epoch is strictly below the localCurrentEpoch of every currently protected
usable slot (equivalently, at most that minimum minus one). -/
def Inv (st : LightEpoch) : Prop :=
  1 ≤ st.currentEpoch ∧
  st.safeToReclaimEpoch < st.currentEpoch ∧
  ∀ i, 1 ≤ i → i ≤ st.entryNum → (st.entry i).localCurrentEpoch ≠ 0 →
    st.safeToReclaimEpoch < (st.entry i).localCurrentEpoch

theorem inv_of_fields_eq (st st2 : LightEpoch) (hInv : Inv st)
    (ht : st2.table = st.table) (hc : st2.currentEpoch = st.currentEpoch)
    (hs : st2.safeToReclaimEpoch = st.safeToReclaimEpoch)
    (hn : st2.entryNum = st.entryNum) : Inv st2 := by
  obtain ⟨h1, h2, h3⟩ := hInv
  refine ⟨?_, ?_, ?_⟩
  · rw [hc]; exact h1
  · rw [hc, hs]; exact h2
  · intro i hi1 hi2 hne
    rw [hn] at hi2
    rw [LightEpoch.entry, ht] at hne
    rw [LightEpoch.entry, ht, hs]
    exact h3 i hi1 hi2 hne

theorem inv_newLightEpoch (size : Nat) : Inv (NewLightEpoch size) := by
  refine ⟨Nat.le_refl 1, Nat.zero_lt_one, ?_⟩
  intro i hi1 hi2 hne
  exfalso
  apply hne
  show ((List.replicate (size + 2) EpochEntry.init).getD i EpochEntry.init).localCurrentEpoch = 0
  by_cases hi : i < size + 2
  · rw [getD_replicate _ _ _ _ hi]
    rfl
  · rw [List.getD_eq_default _ _ (by simpa using (by omega : size + 2 ≤ i))]
    rfl

/-! ## Properties of the safety scan -/

theorem oldestScan_le_acc (st : LightEpoch) (idxs : List Nat) (acc : Nat) :
    oldestScan st idxs acc ≤ acc := by
  induction idxs generalizing acc with
  | nil => exact Nat.le_refl acc
  | cons i rest ih =>
    rw [oldestScan]
    refine Nat.le_trans (ih _) ?_
    split
    · next h => exact Nat.le_of_lt h.2
    · exact Nat.le_refl acc

theorem oldestScan_le_mem (st : LightEpoch) (idxs : List Nat) :
    ∀ (acc i : Nat), i ∈ idxs → (st.entry i).localCurrentEpoch ≠ 0 →
      oldestScan st idxs acc ≤ (st.entry i).localCurrentEpoch := by
  induction idxs with
  | nil =>
    intro acc i hmem _
    cases hmem
  | cons j rest ih =>
    intro acc i hmem hne
    rw [oldestScan]
    rcases List.mem_cons.1 hmem with hij | htail
    · subst hij
      refine Nat.le_trans (oldestScan_le_acc st rest _) ?_
      split
      · exact Nat.le_refl _
      · next h =>
        rw [Unprotected] at h
        have := fun hlt => h ⟨hne, hlt⟩
        omega
    · exact ih _ i htail hne

theorem oldestScan_lower (st : LightEpoch) (idxs : List Nat) :
    ∀ (acc bnd : Nat), bnd ≤ acc →
      (∀ i ∈ idxs, (st.entry i).localCurrentEpoch ≠ 0 →
        bnd ≤ (st.entry i).localCurrentEpoch) →
      bnd ≤ oldestScan st idxs acc := by
  induction idxs with
  | nil =>
    intro acc bnd hacc _
    exact hacc
  | cons j rest ih =>
    intro acc bnd hacc hall
    rw [oldestScan]
    refine ih _ bnd ?_ (fun i hi => hall i (List.mem_cons_of_mem j hi))
    split
    · next h =>
      rw [Unprotected] at h
      exact hall j (List.mem_cons_self j rest) h.1
    · exact hacc

/-! ## Frame properties of the drain scan -/

theorem drainScan_frame (safe : Nat) (idxs : List Nat) (st : LightEpoch) :
    (drainScan safe idxs st).table = st.table ∧
    (drainScan safe idxs st).currentEpoch = st.currentEpoch ∧
    (drainScan safe idxs st).safeToReclaimEpoch = st.safeToReclaimEpoch ∧
    (drainScan safe idxs st).entryNum = st.entryNum ∧
    (drainScan safe idxs st).tableUsed = st.tableUsed := by
  induction idxs generalizing st with
  | nil => exact ⟨rfl, rfl, rfl, rfl, rfl⟩
  | cons i rest ih =>
    rw [drainScan]
    split
    · split
      · split
        · exact ⟨rfl, rfl, rfl, rfl, rfl⟩
        · exact ih (popAt _ _ st)
      · exact ih st
    · exact ih st

/-! ## Invariant preservation -/

theorem drain_inv (st : LightEpoch) (hInv : Inv st) :
    Inv (Drain st st.currentEpoch) ∧
    st.safeToReclaimEpoch ≤ (Drain st st.currentEpoch).safeToReclaimEpoch ∧
    (Drain st st.currentEpoch).currentEpoch = st.currentEpoch ∧
    (Drain st st.currentEpoch).entryNum = st.entryNum ∧
    (Drain st st.currentEpoch).table = st.table := by
  obtain ⟨h1, h2, h3⟩ := hInv
  have hold1 : oldestScan st (List.range' 1 st.entryNum) st.currentEpoch ≤
      st.currentEpoch := oldestScan_le_acc st _ _
  have hold2 : st.safeToReclaimEpoch + 1 ≤
      oldestScan st (List.range' 1 st.entryNum) st.currentEpoch := by
    refine oldestScan_lower st _ _ _ (by omega) ?_
    intro i hi hne
    have hmem := List.mem_range'_1.1 hi
    have := h3 i hmem.1 (by omega) hne
    omega
  have hold3 : ∀ i, 1 ≤ i → i ≤ st.entryNum → (st.entry i).localCurrentEpoch ≠ 0 →
      oldestScan st (List.range' 1 st.entryNum) st.currentEpoch ≤
        (st.entry i).localCurrentEpoch := by
    intro i hi1 hi2 hne
    exact oldestScan_le_mem st _ _ i (List.mem_range'_1.2 ⟨hi1, by omega⟩) hne
  set st1 := (ComputeNewSafeToReclaimEpoch st st.currentEpoch).1 with hst1
  have hfields : st1.table = st.table ∧ st1.currentEpoch = st.currentEpoch ∧
      st1.entryNum = st.entryNum ∧
      st1.safeToReclaimEpoch =
        oldestScan st (List.range' 1 st.entryNum) st.currentEpoch - 1 :=
    ⟨rfl, rfl, rfl, rfl⟩
  have hInv1 : Inv st1 := by
    refine ⟨by rw [hfields.2.1]; exact h1, ?_, ?_⟩
    · rw [hfields.2.1, hfields.2.2.2]
      omega
    · intro i hi1 hi2 hne
      rw [hfields.2.2.2]
      rw [LightEpoch.entry, hfields.1] at hne
      have hmain := hold3 i hi1 (by rw [hfields.2.2.1] at hi2; exact hi2) hne
      rw [LightEpoch.entry] at hmain
      rw [LightEpoch.entry, hfields.1]
      omega
  have hframe := drainScan_frame st1.safeToReclaimEpoch (List.range drainListSize) st1
  have hD : Drain st st.currentEpoch =
      drainScan st1.safeToReclaimEpoch (List.range drainListSize) st1 := rfl
  rw [hD]
  refine ⟨inv_of_fields_eq st1 _ hInv1 hframe.1 hframe.2.1 hframe.2.2.1 hframe.2.2.2.1,
    ?_, ?_, ?_, ?_⟩
  · rw [hframe.2.2.1, hfields.2.2.2]
    omega
  · rw [hframe.2.1, hfields.2.1]
  · rw [hframe.2.2.2.1, hfields.2.2.1]
  · rw [hframe.1, hfields.1]

theorem protect_inv (st : LightEpoch) (i : Nat) (hInv : Inv st) :
    Inv (Protect st i).1 ∧ (Protect st i).1.safeToReclaimEpoch = st.safeToReclaimEpoch ∧
    (Protect st i).1.currentEpoch = st.currentEpoch ∧
    (Protect st i).1.entryNum = st.entryNum := by
  obtain ⟨h1, h2, h3⟩ := hInv
  refine ⟨⟨h1, h2, ?_⟩, rfl, rfl, rfl⟩
  intro j hj1 hj2 hne
  show st.safeToReclaimEpoch < _
  by_cases hij : i = j
  · subst hij
    by_cases hi : i < st.table.length
    · rw [LightEpoch.entry, show (Protect st i).1.table =
        st.table.set i { st.entry i with localCurrentEpoch := st.currentEpoch } from rfl,
        getD_set_self _ _ _ _ hi]
      exact h2
    · rw [LightEpoch.entry, show (Protect st i).1.table =
        st.table.set i { st.entry i with localCurrentEpoch := st.currentEpoch } from rfl,
        List.set_eq_of_length_le (by omega)] at hne ⊢
      exact h3 i hj1 hj2 hne
  · rw [LightEpoch.entry, show (Protect st i).1.table =
      st.table.set i { st.entry i with localCurrentEpoch := st.currentEpoch } from rfl,
      getD_set_ne _ _ _ _ _ hij] at hne ⊢
    exact h3 j hj1 hj2 hne

theorem unprotect_inv (st : LightEpoch) (i : Nat) (hInv : Inv st) :
    Inv (Unprotect st i) ∧ (Unprotect st i).safeToReclaimEpoch = st.safeToReclaimEpoch ∧
    (Unprotect st i).currentEpoch = st.currentEpoch ∧
    (Unprotect st i).entryNum = st.entryNum := by
  obtain ⟨h1, h2, h3⟩ := hInv
  refine ⟨⟨h1, h2, ?_⟩, rfl, rfl, rfl⟩
  intro j hj1 hj2 hne
  show st.safeToReclaimEpoch < _
  by_cases hij : i = j
  · subst hij
    by_cases hi : i < st.table.length
    · rw [LightEpoch.entry, show (Unprotect st i).table =
        st.table.set i { st.entry i with localCurrentEpoch := Unprotected } from rfl,
        getD_set_self _ _ _ _ hi] at hne
      exact absurd rfl hne
    · rw [LightEpoch.entry, show (Unprotect st i).table =
        st.table.set i { st.entry i with localCurrentEpoch := Unprotected } from rfl,
        List.set_eq_of_length_le (by omega)] at hne ⊢
      exact h3 i hj1 hj2 hne
  · rw [LightEpoch.entry, show (Unprotect st i).table =
      st.table.set i { st.entry i with localCurrentEpoch := Unprotected } from rfl,
      getD_set_ne _ _ _ _ _ hij] at hne ⊢
    exact h3 j hj1 hj2 hne

theorem bump_inv (st : LightEpoch) (hInv : Inv st) :
    Inv (BumpCurrentEpoch st).1 ∧
    st.safeToReclaimEpoch ≤ (BumpCurrentEpoch st).1.safeToReclaimEpoch ∧
    st.currentEpoch ≤ (BumpCurrentEpoch st).1.currentEpoch ∧
    (BumpCurrentEpoch st).1.entryNum = st.entryNum ∧
    (BumpCurrentEpoch st).1.table = st.table := by
  obtain ⟨h1, h2, h3⟩ := hInv
  set st1 : LightEpoch := { st with currentEpoch := st.currentEpoch + 1 } with hst1
  have hInv1 : Inv st1 := by
    refine ⟨?_, ?_, ?_⟩
    · show 1 ≤ st.currentEpoch + 1
      omega
    · show st.safeToReclaimEpoch < st.currentEpoch + 1
      omega
    · intro i hi1 hi2 hne
      exact h3 i hi1 hi2 hne
  have hB : (BumpCurrentEpoch st).1 =
      if 0 < st1.drainCount then Drain st1 st1.currentEpoch else st1 := rfl
  rw [hB]
  by_cases hd : 0 < st1.drainCount
  · rw [if_pos hd]
    obtain ⟨hi, hs, hc, hn, ht⟩ := drain_inv st1 hInv1
    exact ⟨hi, hs, by rw [hc]; show st.currentEpoch ≤ st.currentEpoch + 1; omega,
      hn, ht⟩
  · rw [if_neg hd]
    exact ⟨hInv1, Nat.le_refl _, by show st.currentEpoch ≤ st.currentEpoch + 1; omega,
      rfl, rfl⟩

theorem protectAndDrain_inv (st : LightEpoch) (i : Nat) (hInv : Inv st) :
    Inv (ProtectAndDrain st i).1 ∧
    st.safeToReclaimEpoch ≤ (ProtectAndDrain st i).1.safeToReclaimEpoch ∧
    st.currentEpoch ≤ (ProtectAndDrain st i).1.currentEpoch ∧
    (ProtectAndDrain st i).1.entryNum = st.entryNum := by
  obtain ⟨hip, hsp, hcp, hnp⟩ := protect_inv st i hInv
  have hP : (ProtectAndDrain st i).1 =
      if 0 < (Protect st i).1.drainCount then
        Drain (Protect st i).1 (Protect st i).2 else (Protect st i).1 := rfl
  have hpc : (Protect st i).2 = (Protect st i).1.currentEpoch := rfl
  rw [hP]
  by_cases hd : 0 < (Protect st i).1.drainCount
  · rw [if_pos hd, hpc]
    obtain ⟨hi2, hs2, hc2, hn2, _⟩ := drain_inv (Protect st i).1 hip
    exact ⟨hi2, by omega, by omega, by omega⟩
  · rw [if_neg hd]
    exact ⟨hip, by omega, by omega, hnp⟩

theorem bumpWithCallback_inv (st : LightEpoch) (id : Nat) (hInv : Inv st) :
    Inv (BumpCurrentEpochWithCallback st id).1 ∧
    st.safeToReclaimEpoch ≤ (BumpCurrentEpochWithCallback st id).1.safeToReclaimEpoch ∧
    st.currentEpoch ≤ (BumpCurrentEpochWithCallback st id).1.currentEpoch ∧
    (BumpCurrentEpochWithCallback st id).1.entryNum = st.entryNum := by
  obtain ⟨hib, hsb, hcb, hnb, _⟩ := bump_inv st hInv
  set st1 := (BumpCurrentEpoch st).1 with hst1
  have hfields : ∀ p, (registerAction st1 p id).table = st1.table ∧
      (registerAction st1 p id).currentEpoch = st1.currentEpoch ∧
      (registerAction st1 p id).safeToReclaimEpoch = st1.safeToReclaimEpoch ∧
      (registerAction st1 p id).entryNum = st1.entryNum := by
    intro p
    rw [registerAction]
    split
    · split
      · exact ⟨rfl, rfl, rfl, rfl⟩
      · exact ⟨rfl, rfl, rfl, rfl⟩
    · exact ⟨rfl, rfl, rfl, rfl⟩
  have hval : (BumpCurrentEpochWithCallback st id).1 =
      registerAction st1 ((BumpCurrentEpoch st).2 - 1) id := rfl
  rw [hval]
  obtain ⟨hf1, hf2, hf3, hf4⟩ := hfields ((BumpCurrentEpoch st).2 - 1)
  refine ⟨inv_of_fields_eq st1 _ hib hf1 hf2 hf3 hf4, ?_, ?_, ?_⟩
  · rw [hf3]
    exact hsb
  · rw [hf2]
    exact hcb
  · rw [hf4]
    exact hnb

/-- One interleaving step preserves the invariant; the safe-to-reclaim
epoch and the epoch counter never decrease, and the table size is fixed. -/
theorem stepOp_inv (st : LightEpoch) (op : Op) (hInv : Inv st) :
    Inv (stepOp st op) ∧
    st.safeToReclaimEpoch ≤ (stepOp st op).safeToReclaimEpoch ∧
    st.currentEpoch ≤ (stepOp st op).currentEpoch ∧
    (stepOp st op).entryNum = st.entryNum := by
  cases op with
  | protect i =>
    have he : stepOp st (Op.protect i) = (Protect st i).1 := rfl
    rw [he]
    obtain ⟨h1, h2, h3, h4⟩ := protect_inv st i hInv
    exact ⟨h1, by omega, by omega, h4⟩
  | unprotect i =>
    have he : stepOp st (Op.unprotect i) = Unprotect st i := rfl
    rw [he]
    obtain ⟨h1, h2, h3, h4⟩ := unprotect_inv st i hInv
    exact ⟨h1, by omega, by omega, h4⟩
  | bump =>
    have he : stepOp st Op.bump = (BumpCurrentEpoch st).1 := rfl
    rw [he]
    obtain ⟨h1, h2, h3, h4, _⟩ := bump_inv st hInv
    exact ⟨h1, h2, h3, h4⟩
  | drain =>
    have he : stepOp st Op.drain = Drain st st.currentEpoch := rfl
    rw [he]
    obtain ⟨h1, h2, h3, h4, _⟩ := drain_inv st hInv
    exact ⟨h1, h2, by omega, h4⟩
  | protectAndDrain i =>
    have he : stepOp st (Op.protectAndDrain i) = (ProtectAndDrain st i).1 := rfl
    rw [he]
    exact protectAndDrain_inv st i hInv
  | bumpWithCallback id =>
    have he : stepOp st (Op.bumpWithCallback id) =
      (BumpCurrentEpochWithCallback st id).1 := rfl
    rw [he]
    exact bumpWithCallback_inv st id hInv

theorem applyOps_inv (st : LightEpoch) (ops : List Op) (hInv : Inv st) :
    Inv (applyOps st ops) ∧
    st.safeToReclaimEpoch ≤ (applyOps st ops).safeToReclaimEpoch ∧
    st.currentEpoch ≤ (applyOps st ops).currentEpoch ∧
    (applyOps st ops).entryNum = st.entryNum := by
  induction ops generalizing st with
  | nil => exact ⟨hInv, Nat.le_refl _, Nat.le_refl _, rfl⟩
  | cons op rest ih =>
    have hstep := stepOp_inv st op hInv
    have hrest := ih (stepOp st op) hstep.1
    have happ : applyOps st (op :: rest) = applyOps (stepOp st op) rest := rfl
    rw [happ]
    exact ⟨hrest.1, by omega, by omega, by omega⟩

/-! ## C1 -/

/-- Recognizer for the Protect / Unprotect / BumpCurrentEpoch operations of
claim C1. -/
def isPUB : Op → Bool
  | Op.protect _ => true
  | Op.unprotect _ => true
  | Op.bump => true
  | _ => false

/-- C1: starting from NewLightEpoch(N), along any sequence of Protect,
Unprotect and BumpCurrentEpoch steps (any interleaving by any number of
threads), the safeToReclaimEpoch after any prefix is at most its value
after the whole sequence (it is non-decreasing over the sequence), and
after every prefix it is at most localCurrentEpoch - 1 for every currently
protected usable slot i in 1..N, hence at most their minimum minus one. -/
theorem safeToReclaim_monotone_and_bounded (N : Nat) (ops : List Op)
    (_hops : ∀ op ∈ ops, isPUB op = true) (l1 l2 : List Op)
    (hsplit : ops = l1 ++ l2) :
    (applyOps (NewLightEpoch N) l1).safeToReclaimEpoch ≤
      (applyOps (NewLightEpoch N) ops).safeToReclaimEpoch ∧
    ∀ i, 1 ≤ i → i ≤ N →
      ((applyOps (NewLightEpoch N) l1).entry i).localCurrentEpoch ≠ 0 →
      (applyOps (NewLightEpoch N) l1).safeToReclaimEpoch ≤
        ((applyOps (NewLightEpoch N) l1).entry i).localCurrentEpoch - 1 := by
  have h1 := applyOps_inv (NewLightEpoch N) l1 (inv_newLightEpoch N)
  constructor
  · have happ : applyOps (NewLightEpoch N) ops =
        applyOps (applyOps (NewLightEpoch N) l1) l2 := by
      rw [hsplit, applyOps, applyOps, applyOps, List.foldl_append]
    rw [happ]
    exact (applyOps_inv _ l2 h1.1).2.1
  · intro i hi1 hi2 hne
    have hN : (applyOps (NewLightEpoch N) l1).entryNum = N := by
      have := h1.2.2.2
      simpa [NewLightEpoch] using this
    have := h1.1.2.2 i hi1 (by omega) hne
    omega

/-- C1 witness: protecting slot 1 then bumping on a one-slot table: the
safe epoch does not decrease across the bump, and after the protect the
safe epoch is at most slot 1's localCurrentEpoch - 1. -/
theorem safeToReclaim_monotone_and_bounded_witness :
    (applyOps (NewLightEpoch 1) [Op.protect 1]).safeToReclaimEpoch ≤
      (applyOps (NewLightEpoch 1) [Op.protect 1, Op.bump]).safeToReclaimEpoch ∧
    (applyOps (NewLightEpoch 1) [Op.protect 1]).safeToReclaimEpoch ≤
      ((applyOps (NewLightEpoch 1) [Op.protect 1]).entry 1).localCurrentEpoch - 1 := by
  obtain ⟨h1, h2⟩ := safeToReclaim_monotone_and_bounded 1 [Op.protect 1, Op.bump]
    (by decide) [Op.protect 1] [Op.bump] rfl
  exact ⟨h1, h2 1 (by decide) (by decide) (by decide)⟩

/-! ## C2: the reclamation scenario -/

theorem getD_replicate_self {α : Type} (n i : Nat) (a : α) :
    (List.replicate n a).getD i a = a := by
  by_cases hi : i < n
  · exact getD_replicate _ _ _ _ hi
  · exact List.getD_eq_default _ _ (by simpa using (by omega : n ≤ i))

/-- Steps allowed while the scenario's slot s stays protected: anything
that does not touch slot s and registers no other action under the
scenario callback's id. -/
def midOk (s id0 : Nat) : Op → Bool
  | Op.protect i => decide (i ≠ s)
  | Op.unprotect i => decide (i ≠ s)
  | Op.protectAndDrain i => decide (i ≠ s)
  | Op.bump => true
  | Op.drain => true
  | Op.bumpWithCallback id => decide (id ≠ id0)

/-- Steps allowed after the scenario's action has fired: anything that
registers no new action under the scenario callback's id. -/
def postOk (id0 : Nat) : Op → Bool
  | Op.bumpWithCallback id => decide (id ≠ id0)
  | _ => true

/-- The scenario prefix of claim C2: from a fresh table, bump the global
epoch from 1 to 5, protect slot s at epoch 5, then register callback id0
via BumpCurrentEpochWithCallback — trigger epoch 5, current epoch
becoming 6. -/
def C2Setup (nSize s id0 : Nat) : LightEpoch :=
  applyOps (NewLightEpoch nSize)
    [Op.bump, Op.bump, Op.bump, Op.bump, Op.protect s, Op.bumpWithCallback id0]

/-- The state the C2 scenario prefix reaches, written out. -/
def c2SetupExplicit (nSize s id0 : Nat) : LightEpoch :=
  { currentEpoch := 6
    safeToReclaimEpoch := 0
    table := (List.replicate (nSize + 2) EpochEntry.init).set s
      { localCurrentEpoch := 5, reentrant := 0, atomicPhaseFinished := RestPhase }
    tableUsed := List.replicate (nSize + 2) 0
    entryNum := nSize
    drainCount := 1
    drainList := (List.replicate drainListSize ActionSlot.free).set 0
      (ActionSlot.pend 5 id0)
    fired := [] }

set_option maxRecDepth 4000 in
theorem c2Setup_eq (nSize s id0 : Nat) (hs2 : s ≤ nSize) :
    C2Setup nSize s id0 = c2SetupExplicit nSize s id0 := by
  have e2 : (NewLightEpoch nSize).entry s = EpochEntry.init := by
    show (List.replicate (nSize + 2) EpochEntry.init).getD s EpochEntry.init = _
    exact getD_replicate _ _ _ _ (by omega)
  have e1 : C2Setup nSize s id0 =
      { currentEpoch := 6
        safeToReclaimEpoch := 0
        table := (List.replicate (nSize + 2) EpochEntry.init).set s
          { (NewLightEpoch nSize).entry s with localCurrentEpoch := 5 }
        tableUsed := List.replicate (nSize + 2) 0
        entryNum := nSize
        drainCount := 1
        drainList := (List.replicate drainListSize ActionSlot.free).set 0
          (ActionSlot.pend 5 id0)
        fired := [] } := rfl
  rw [e1, e2]
  rfl

/-- The invariant holding while the scenario's slot s stays protected at
epoch 5: the safety invariant; the registered action (trigger 5, callback
id0) sits in drain slot 0; no other drain slot holds id0; id0 has never
fired; the cached safe epoch is below 5; the global epoch is at least 6
and every other protected slot joined at epoch 6 or later. -/
def MidInv (s id0 : Nat) (st : LightEpoch) : Prop :=
  Inv st ∧
  1 ≤ s ∧ s ≤ st.entryNum ∧
  (st.entry s).localCurrentEpoch = 5 ∧
  st.safeToReclaimEpoch < 5 ∧
  6 ≤ st.currentEpoch ∧
  (∀ i, 1 ≤ i → i ≤ st.entryNum → i ≠ s → (st.entry i).localCurrentEpoch ≠ 0 →
    6 ≤ (st.entry i).localCurrentEpoch) ∧
  st.drainList.getD 0 ActionSlot.free = ActionSlot.pend 5 id0 ∧
  (∀ j t, j ≠ 0 → st.drainList.getD j ActionSlot.free ≠ ActionSlot.pend t id0) ∧
  st.fired.count id0 = 0

/-- After the action has fired: no drain slot holds id0 any more and id0
appears exactly once in the trace of executed callbacks. -/
def PostInv (id0 : Nat) (st : LightEpoch) : Prop :=
  (∀ j t, st.drainList.getD j ActionSlot.free ≠ ActionSlot.pend t id0) ∧
  st.fired.count id0 = 1

theorem midInv_setup (nSize s id0 : Nat) (hs1 : 1 ≤ s) (hs2 : s ≤ nSize) :
    MidInv s id0 (C2Setup nSize s id0) := by
  rw [c2Setup_eq nSize s id0 hs2]
  have hslen : s < ((List.replicate (nSize + 2) EpochEntry.init)).length := by
    rw [List.length_replicate]
    omega
  have hentry : ∀ i, (c2SetupExplicit nSize s id0).entry i =
      if i = s then
        { localCurrentEpoch := 5, reentrant := 0, atomicPhaseFinished := RestPhase }
      else EpochEntry.init := by
    intro i
    by_cases hi : i = s
    · subst hi
      rw [if_pos rfl]
      exact getD_set_self _ _ _ _ hslen
    · rw [if_neg hi]
      show ((List.replicate (nSize + 2) EpochEntry.init).set s _).getD i _ = _
      rw [getD_set_ne _ _ _ _ _ (fun h => hi (h.symm))]
      exact getD_replicate_self _ _ _
  refine ⟨⟨(by decide : (1 : Nat) ≤ 6), (by decide : (0 : Nat) < 6), ?_⟩, hs1, hs2,
    ?_, (by decide : (0 : Nat) < 5), (by decide : (6 : Nat) ≤ 6), ?_, ?_, ?_, rfl⟩
  · intro i hi1 hi2 hne
    rw [hentry i] at hne ⊢
    by_cases hi : i = s
    · rw [if_pos hi]
      show (0 : Nat) < 5
      decide
    · rw [if_neg hi] at hne
      exact absurd rfl hne
  · rw [hentry s, if_pos rfl]
  · intro i hi1 hi2 hine hne
    rw [hentry i, if_neg hine] at hne
    exact absurd rfl hne
  · show ((List.replicate drainListSize ActionSlot.free).set 0
      (ActionSlot.pend 5 id0)).getD 0 ActionSlot.free = _
    rw [getD_set_self _ _ _ _ (by rw [List.length_replicate]; decide)]
  · intro j t hj
    show ((List.replicate drainListSize ActionSlot.free).set 0
      (ActionSlot.pend 5 id0)).getD j ActionSlot.free ≠ _
    rw [getD_set_ne _ _ _ _ _ (fun h => hj h.symm), getD_replicate_self]
    intro h
    cases h

theorem count_append_ne (l : List Nat) (a b : Nat) (h : a ≠ b) :
    (l ++ [a]).count b = l.count b := by
  rw [List.count_append]
  have h0 : List.count b [a] = 0 := List.count_eq_zero.2 (by simp [Ne.symm h])
  omega

theorem count_append_self (l : List Nat) (a : Nat) :
    (l ++ [a]).count a = l.count a + 1 := by
  rw [List.count_append]
  simp

/-- While the cached safe epoch stays below 5, a drain scan can pop other
actions but leaves the (trigger 5, id0) action in slot 0 untouched, puts
id0 into no other slot, and never runs callback id0. -/
theorem mid_drainScan (id0 safe : Nat) (hsafe : safe < 5) (idxs : List Nat) :
    ∀ st : LightEpoch,
      st.drainList.getD 0 ActionSlot.free = ActionSlot.pend 5 id0 →
      (∀ j t, j ≠ 0 →
        st.drainList.getD j ActionSlot.free ≠ ActionSlot.pend t id0) →
      (drainScan safe idxs st).drainList.getD 0 ActionSlot.free =
        ActionSlot.pend 5 id0 ∧
      (∀ j t, j ≠ 0 →
        (drainScan safe idxs st).drainList.getD j ActionSlot.free ≠
          ActionSlot.pend t id0) ∧
      (drainScan safe idxs st).fired.count id0 = st.fired.count id0 := by
  induction idxs with
  | nil =>
    intro st h0 hoth
    exact ⟨h0, hoth, rfl⟩
  | cons i rest ih =>
    intro st h0 hoth
    rw [drainScan]
    split
    · next t id hslot =>
      split
      · next ht =>
        have hi0 : i ≠ 0 := by
          intro h
          subst h
          rw [h0] at hslot
          injection hslot with h1 h2
          omega
        have hid : id ≠ id0 := by
          intro h
          subst h
          exact hoth i t hi0 hslot
        have hlen : i < st.drainList.length := by
          apply lt_length_of_getD_ne_default
          rw [hslot]
          intro hcon
          cases hcon
        have hp0 : (popAt i id st).drainList.getD 0 ActionSlot.free =
            ActionSlot.pend 5 id0 := by
          show (st.drainList.set i ActionSlot.free).getD 0 ActionSlot.free = _
          rw [getD_set_ne _ _ _ _ _ hi0]
          exact h0
        have hpoth : ∀ j t2, j ≠ 0 →
            (popAt i id st).drainList.getD j ActionSlot.free ≠
              ActionSlot.pend t2 id0 := by
          intro j t2 hj
          show (st.drainList.set i ActionSlot.free).getD j ActionSlot.free ≠ _
          by_cases hji : j = i
          · subst hji
            rw [getD_set_self _ _ _ _ hlen]
            intro hcon
            cases hcon
          · rw [getD_set_ne _ _ _ _ _ (fun h => hji h.symm)]
            exact hoth j t2 hj
        have hpcount : (popAt i id st).fired.count id0 = st.fired.count id0 :=
          count_append_ne st.fired id id0 hid
        split
        · next hz => exact ⟨hp0, hpoth, hpcount⟩
        · next hz =>
          obtain ⟨a1, a2, a3⟩ := ih (popAt i id st) hp0 hpoth
          exact ⟨a1, a2, by rw [a3, hpcount]⟩
      · next ht => exact ih st h0 hoth
    · next hslot => exact ih st h0 hoth

/-- Once id0 sits in no drain slot, a drain scan never runs callback id0
and never re-introduces it. -/
theorem noId0_drainScan (id0 safe : Nat) (idxs : List Nat) :
    ∀ st : LightEpoch,
      (∀ j t, st.drainList.getD j ActionSlot.free ≠ ActionSlot.pend t id0) →
      (∀ j t, (drainScan safe idxs st).drainList.getD j ActionSlot.free ≠
        ActionSlot.pend t id0) ∧
      (drainScan safe idxs st).fired.count id0 = st.fired.count id0 := by
  induction idxs with
  | nil =>
    intro st hno
    exact ⟨hno, rfl⟩
  | cons i rest ih =>
    intro st hno
    rw [drainScan]
    split
    · next t id hslot =>
      split
      · next ht =>
        have hid : id ≠ id0 := by
          intro h
          subst h
          exact hno i t hslot
        have hlen : i < st.drainList.length := by
          apply lt_length_of_getD_ne_default
          rw [hslot]
          intro hcon
          cases hcon
        have hpno : ∀ j t2, (popAt i id st).drainList.getD j ActionSlot.free ≠
            ActionSlot.pend t2 id0 := by
          intro j t2
          show (st.drainList.set i ActionSlot.free).getD j ActionSlot.free ≠ _
          by_cases hji : j = i
          · subst hji
            rw [getD_set_self _ _ _ _ hlen]
            intro hcon
            cases hcon
          · rw [getD_set_ne _ _ _ _ _ (fun h => hji h.symm)]
            exact hno j t2
        have hpcount : (popAt i id st).fired.count id0 = st.fired.count id0 :=
          count_append_ne st.fired id id0 hid
        split
        · next hz => exact ⟨hpno, hpcount⟩
        · next hz =>
          obtain ⟨a1, a2⟩ := ih (popAt i id st) hpno
          exact ⟨a1, by rw [a2, hpcount]⟩
      · next ht => exact ih st hno
    · next hslot => exact ih st hno

/-- While the cached safe epoch is below 5, the registration scan of
BumpCurrentEpochWithCallback never selects slot 0 (the pending trigger 5
is not yet safe), so it leaves the (trigger 5, id0) action in place, puts
a foreign id into some other slot, and runs only foreign callbacks. -/
theorem register_mid (id0 : Nat) (st : LightEpoch) (p id : Nat)
    (hsafe : st.safeToReclaimEpoch < 5)
    (h0 : st.drainList.getD 0 ActionSlot.free = ActionSlot.pend 5 id0)
    (hoth : ∀ j t, j ≠ 0 →
      st.drainList.getD j ActionSlot.free ≠ ActionSlot.pend t id0)
    (hid : id ≠ id0) :
    (registerAction st p id).drainList.getD 0 ActionSlot.free =
      ActionSlot.pend 5 id0 ∧
    (∀ j t, j ≠ 0 → (registerAction st p id).drainList.getD j ActionSlot.free ≠
      ActionSlot.pend t id0) ∧
    (registerAction st p id).fired.count id0 = st.fired.count id0 := by
  rw [registerAction]
  split
  · next i hfa =>
    rw [findActionSlot] at hfa
    have hp := List.find?_some hfa
    have hi0 : i ≠ 0 := by
      intro h
      subst h
      rw [h0] at hp
      simp only [decide_eq_true_eq] at hp
      omega
    have hslot0 : ∀ v, (st.drainList.set i v).getD 0 ActionSlot.free =
        ActionSlot.pend 5 id0 := by
      intro v
      rw [getD_set_ne _ _ _ _ _ hi0]
      exact h0
    have hsloto : ∀ t2 j, j ≠ 0 →
        (st.drainList.set i (ActionSlot.pend p id)).getD j ActionSlot.free ≠
          ActionSlot.pend t2 id0 := by
      intro t2 j hj
      by_cases hji : j = i
      · subst hji
        by_cases hjl : j < st.drainList.length
        · rw [getD_set_self _ _ _ _ hjl]
          intro hcon
          injection hcon with hc1 hc2
          exact hid hc2
        · rw [List.set_eq_of_length_le (by omega)]
          exact hoth j t2 hj
      · rw [getD_set_ne _ _ _ _ _ (fun h => hji h.symm)]
        exact hoth j t2 hj
    split
    · next hslot => exact ⟨hslot0 _, fun j t2 hj => hsloto t2 j hj, rfl⟩
    · next t oldId hslot =>
      have hold : oldId ≠ id0 := by
        intro h
        subst h
        exact hoth i t hi0 hslot
      exact ⟨hslot0 _, fun j t2 hj => hsloto t2 j hj,
        count_append_ne st.fired oldId id0 hold⟩
  · next hfa => exact ⟨h0, hoth, rfl⟩

/-- Once id0 sits in no drain slot, a registration with a foreign id keeps
it that way and runs only foreign callbacks. -/
theorem register_noId0 (id0 : Nat) (st : LightEpoch) (p id : Nat)
    (hno : ∀ j t, st.drainList.getD j ActionSlot.free ≠ ActionSlot.pend t id0)
    (hid : id ≠ id0) :
    (∀ j t, (registerAction st p id).drainList.getD j ActionSlot.free ≠
      ActionSlot.pend t id0) ∧
    (registerAction st p id).fired.count id0 = st.fired.count id0 := by
  rw [registerAction]
  split
  · next i hfa =>
    have hsloto : ∀ t2 j,
        (st.drainList.set i (ActionSlot.pend p id)).getD j ActionSlot.free ≠
          ActionSlot.pend t2 id0 := by
      intro t2 j
      by_cases hji : j = i
      · subst hji
        by_cases hjl : j < st.drainList.length
        · rw [getD_set_self _ _ _ _ hjl]
          intro hcon
          injection hcon with hc1 hc2
          exact hid hc2
        · rw [List.set_eq_of_length_le (by omega)]
          exact hno j t2
      · rw [getD_set_ne _ _ _ _ _ (fun h => hji h.symm)]
        exact hno j t2
    split
    · next hslot => exact ⟨fun j t2 => hsloto t2 j, rfl⟩
    · next t oldId hslot =>
      have hold : oldId ≠ id0 := by
        intro h
        subst h
        exact hno i t hslot
      exact ⟨fun j t2 => hsloto t2 j, count_append_ne st.fired oldId id0 hold⟩
  · next hfa => exact ⟨hno, rfl⟩

/-! ## Per-slot frame lemmas for the table operations -/

theorem protect_entry_ne (st : LightEpoch) (i j : Nat) (h : i ≠ j) :
    ((Protect st i).1).entry j = st.entry j := by
  show (st.table.set i _).getD j _ = st.table.getD j _
  exact getD_set_ne _ _ _ _ _ h

theorem protect_entry_self (st : LightEpoch) (i : Nat) (h : i < st.table.length) :
    ((Protect st i).1).entry i =
      { st.entry i with localCurrentEpoch := st.currentEpoch } := by
  show (st.table.set i _).getD i _ = _
  exact getD_set_self _ _ _ _ h

theorem protect_table_oob (st : LightEpoch) (i : Nat) (h : st.table.length ≤ i) :
    ((Protect st i).1).table = st.table :=
  List.set_eq_of_length_le h

theorem unprotect_entry_ne (st : LightEpoch) (i j : Nat) (h : i ≠ j) :
    (Unprotect st i).entry j = st.entry j := by
  show (st.table.set i _).getD j _ = st.table.getD j _
  exact getD_set_ne _ _ _ _ _ h

theorem unprotect_entry_self (st : LightEpoch) (i : Nat) (h : i < st.table.length) :
    (Unprotect st i).entry i =
      { st.entry i with localCurrentEpoch := Unprotected } := by
  show (st.table.set i _).getD i _ = _
  exact getD_set_self _ _ _ _ h

theorem reentrantProtect_entry_ne (st : LightEpoch) (i j : Nat) (h : i ≠ j) :
    ((ReentrantProtect st i).1).entry j = st.entry j := by
  rw [ReentrantProtect]
  split
  · show (st.table.set i _).getD j _ = st.table.getD j _
    exact getD_set_ne _ _ _ _ _ h
  · show (st.table.set i _).getD j _ = st.table.getD j _
    exact getD_set_ne _ _ _ _ _ h

theorem reentrantUnprotect_entry_ne (st : LightEpoch) (i j : Nat) (h : i ≠ j) :
    (ReentrantUnprotect st i).entry j = st.entry j := by
  rw [ReentrantUnprotect]
  split
  · show (st.table.set i _).getD j _ = st.table.getD j _
    exact getD_set_ne _ _ _ _ _ h
  · show (st.table.set i _).getD j _ = st.table.getD j _
    exact getD_set_ne _ _ _ _ _ h

theorem markAndCheck_entry_ne (st : LightEpoch) (i j p : Nat) (h : i ≠ j) :
    ((MarkAndCheckIfFinished st i p).1).entry j = st.entry j := by
  show (st.table.set i _).getD j _ = st.table.getD j _
  exact getD_set_ne _ _ _ _ _ h

theorem registerAction_frame (st : LightEpoch) (p id : Nat) :
    (registerAction st p id).table = st.table ∧
    (registerAction st p id).currentEpoch = st.currentEpoch ∧
    (registerAction st p id).safeToReclaimEpoch = st.safeToReclaimEpoch ∧
    (registerAction st p id).entryNum = st.entryNum := by
  rw [registerAction]
  split
  · split
    · exact ⟨rfl, rfl, rfl, rfl⟩
    · exact ⟨rfl, rfl, rfl, rfl⟩
  · exact ⟨rfl, rfl, rfl, rfl⟩

/-! ## MidInv preservation -/

theorem drain_mid (s id0 : Nat) (st : LightEpoch) (hmid : MidInv s id0 st) :
    MidInv s id0 (Drain st st.currentEpoch) := by
  obtain ⟨hinv, hs1, hs2, hsprot, hsafe, hcur, hhigh, h0, hoth, hcount⟩ := hmid
  have hne : (st.entry s).localCurrentEpoch ≠ 0 := by
    rw [hsprot]
    decide
  have ho5 : oldestScan st (List.range' 1 st.entryNum) st.currentEpoch ≤ 5 := by
    have hm := oldestScan_le_mem st (List.range' 1 st.entryNum) st.currentEpoch s
      (List.mem_range'_1.2 ⟨hs1, by omega⟩) hne
    rw [hsprot] at hm
    exact hm
  set st1 := (ComputeNewSafeToReclaimEpoch st st.currentEpoch).1 with hst1
  have hsafe1 : st1.safeToReclaimEpoch < 5 := by
    show oldestScan st (List.range' 1 st.entryNum) st.currentEpoch - 1 < 5
    omega
  have hD : Drain st st.currentEpoch =
      drainScan st1.safeToReclaimEpoch (List.range drainListSize) st1 := rfl
  have hframe := drainScan_frame st1.safeToReclaimEpoch (List.range drainListSize) st1
  have hmidscan := mid_drainScan id0 st1.safeToReclaimEpoch hsafe1
    (List.range drainListSize) st1 h0 hoth
  have hinvD : Inv (Drain st st.currentEpoch) := (drain_inv st hinv).1
  rw [hD] at hinvD
  rw [hD]
  refine ⟨hinvD, hs1, ?_, ?_, ?_, ?_, ?_, hmidscan.1, hmidscan.2.1, ?_⟩
  · rw [hframe.2.2.2.1]
    exact hs2
  · rw [LightEpoch.entry, hframe.1]
    exact hsprot
  · rw [hframe.2.2.1]
    exact hsafe1
  · rw [hframe.2.1]
    exact hcur
  · intro i hi1 hi2 hine hne2
    rw [hframe.2.2.2.1] at hi2
    rw [LightEpoch.entry, hframe.1] at hne2 ⊢
    exact hhigh i hi1 hi2 hine hne2
  · rw [hmidscan.2.2]
    exact hcount

theorem protect_mid (s id0 i : Nat) (st : LightEpoch) (hmid : MidInv s id0 st)
    (hi : i ≠ s) : MidInv s id0 (Protect st i).1 := by
  obtain ⟨hinv, hs1, hs2, hsprot, hsafe, hcur, hhigh, h0, hoth, hcount⟩ := hmid
  have hinvP := (protect_inv st i hinv).1
  refine ⟨hinvP, hs1, hs2, ?_, hsafe, hcur, ?_, h0, hoth, hcount⟩
  · rw [protect_entry_ne st i s hi]
    exact hsprot
  · intro j hj1 hj2 hjne hne2
    by_cases hji : j = i
    · subst hji
      by_cases hl : j < st.table.length
      · rw [protect_entry_self st j hl] at hne2 ⊢
        exact hcur
      · have ht := protect_table_oob st j (by omega)
        rw [LightEpoch.entry, ht] at hne2 ⊢
        exact hhigh j hj1 hj2 hjne hne2
    · rw [protect_entry_ne st i j (fun h => hji h.symm)] at hne2 ⊢
      exact hhigh j hj1 hj2 hjne hne2

theorem unprotect_mid (s id0 i : Nat) (st : LightEpoch) (hmid : MidInv s id0 st)
    (hi : i ≠ s) : MidInv s id0 (Unprotect st i) := by
  obtain ⟨hinv, hs1, hs2, hsprot, hsafe, hcur, hhigh, h0, hoth, hcount⟩ := hmid
  have hinvU := (unprotect_inv st i hinv).1
  refine ⟨hinvU, hs1, hs2, ?_, hsafe, hcur, ?_, h0, hoth, hcount⟩
  · rw [unprotect_entry_ne st i s hi]
    exact hsprot
  · intro j hj1 hj2 hjne hne2
    by_cases hji : j = i
    · subst hji
      by_cases hl : j < st.table.length
      · rw [unprotect_entry_self st j hl] at hne2
        exact absurd rfl hne2
      · have ht : (Unprotect st j).table = st.table :=
          List.set_eq_of_length_le (by omega)
        rw [LightEpoch.entry, ht] at hne2 ⊢
        exact hhigh j hj1 hj2 hjne hne2
    · rw [unprotect_entry_ne st i j (fun h => hji h.symm)] at hne2 ⊢
      exact hhigh j hj1 hj2 hjne hne2

theorem bump_mid (s id0 : Nat) (st : LightEpoch) (hmid : MidInv s id0 st) :
    MidInv s id0 (BumpCurrentEpoch st).1 := by
  obtain ⟨hinv, hs1, hs2, hsprot, hsafe, hcur, hhigh, h0, hoth, hcount⟩ := hmid
  set st1 : LightEpoch := { st with currentEpoch := st.currentEpoch + 1 } with hst1
  have hinv1 : Inv st1 := by
    refine ⟨?_, ?_, ?_⟩
    · show 1 ≤ st.currentEpoch + 1
      omega
    · show st.safeToReclaimEpoch < st.currentEpoch + 1
      have := hinv.2.1
      omega
    · intro i hi1 hi2 hne
      exact hinv.2.2 i hi1 hi2 hne
  have hmid1 : MidInv s id0 st1 := by
    refine ⟨hinv1, hs1, hs2, hsprot, hsafe, ?_, hhigh, h0, hoth, hcount⟩
    show 6 ≤ st.currentEpoch + 1
    omega
  have hB : (BumpCurrentEpoch st).1 =
      if 0 < st1.drainCount then Drain st1 st1.currentEpoch else st1 := rfl
  rw [hB]
  by_cases hd : 0 < st1.drainCount
  · rw [if_pos hd]
    exact drain_mid s id0 st1 hmid1
  · rw [if_neg hd]
    exact hmid1

theorem register_midInv (s id0 : Nat) (st : LightEpoch) (p id : Nat)
    (hmid : MidInv s id0 st) (hid : id ≠ id0) :
    MidInv s id0 (registerAction st p id) := by
  obtain ⟨hinv, hs1, hs2, hsprot, hsafe, hcur, hhigh, h0, hoth, hcount⟩ := hmid
  obtain ⟨hf1, hf2, hf3, hf4⟩ := registerAction_frame st p id
  obtain ⟨hr0, hroth, hrcount⟩ := register_mid id0 st p id hsafe h0 hoth hid
  refine ⟨inv_of_fields_eq st _ hinv hf1 hf2 hf3 hf4, hs1, ?_, ?_, ?_, ?_, ?_,
    hr0, hroth, ?_⟩
  · rw [hf4]
    exact hs2
  · rw [LightEpoch.entry, hf1]
    exact hsprot
  · rw [hf3]
    exact hsafe
  · rw [hf2]
    exact hcur
  · intro j hj1 hj2 hjne hne2
    rw [hf4] at hj2
    rw [LightEpoch.entry, hf1] at hne2 ⊢
    exact hhigh j hj1 hj2 hjne hne2
  · rw [hrcount]
    exact hcount

theorem stepOp_mid (s id0 : Nat) (st : LightEpoch) (op : Op)
    (hmid : MidInv s id0 st) (hok : midOk s id0 op = true) :
    MidInv s id0 (stepOp st op) := by
  cases op with
  | protect i =>
    have hi : i ≠ s := by simpa [midOk] using hok
    exact protect_mid s id0 i st hmid hi
  | unprotect i =>
    have hi : i ≠ s := by simpa [midOk] using hok
    exact unprotect_mid s id0 i st hmid hi
  | bump => exact bump_mid s id0 st hmid
  | drain => exact drain_mid s id0 st hmid
  | protectAndDrain i =>
    have hi : i ≠ s := by simpa [midOk] using hok
    have hm1 := protect_mid s id0 i st hmid hi
    have hP : stepOp st (Op.protectAndDrain i) =
        if 0 < (Protect st i).1.drainCount then
          Drain (Protect st i).1 (Protect st i).1.currentEpoch
        else (Protect st i).1 := rfl
    rw [hP]
    by_cases hd : 0 < (Protect st i).1.drainCount
    · rw [if_pos hd]
      exact drain_mid s id0 (Protect st i).1 hm1
    · rw [if_neg hd]
      exact hm1
  | bumpWithCallback id =>
    have hid : id ≠ id0 := by simpa [midOk] using hok
    have hm1 := bump_mid s id0 st hmid
    have hR : stepOp st (Op.bumpWithCallback id) =
        registerAction (BumpCurrentEpoch st).1 ((BumpCurrentEpoch st).2 - 1) id := rfl
    rw [hR]
    exact register_midInv s id0 (BumpCurrentEpoch st).1 _ id hm1 hid

theorem applyOps_mid (s id0 : Nat) (ops : List Op) :
    ∀ st : LightEpoch, MidInv s id0 st →
      (∀ op ∈ ops, midOk s id0 op = true) → MidInv s id0 (applyOps st ops) := by
  induction ops with
  | nil =>
    intro st h _
    exact h
  | cons op rest ih =>
    intro st h hall
    exact ih _ (stepOp_mid s id0 st op h (hall op (List.mem_cons_self op rest)))
      (fun o ho => hall o (List.mem_cons_of_mem op ho))

/-! ## The firing drain -/

set_option maxRecDepth 4000 in
/-- Once every protected slot is at epoch 6 or later and the global epoch
is at least 6, a Drain at the current epoch computes a safe epoch of at
least 5, so its scan reaches drain slot 0 first, pops the (trigger 5, id0)
action and runs callback id0 exactly once; afterwards id0 sits in no drain
slot. -/
theorem drain_fires (st : LightEpoch) (id0 : Nat)
    (hcur : 6 ≤ st.currentEpoch)
    (hhigh : ∀ i, 1 ≤ i → i ≤ st.entryNum → (st.entry i).localCurrentEpoch ≠ 0 →
      6 ≤ (st.entry i).localCurrentEpoch)
    (h0 : st.drainList.getD 0 ActionSlot.free = ActionSlot.pend 5 id0)
    (hoth : ∀ j t, j ≠ 0 →
      st.drainList.getD j ActionSlot.free ≠ ActionSlot.pend t id0)
    (hcount : st.fired.count id0 = 0) :
    (Drain st st.currentEpoch).fired.count id0 = 1 ∧
    (∀ j t, (Drain st st.currentEpoch).drainList.getD j ActionSlot.free ≠
      ActionSlot.pend t id0) := by
  have ho6 : 6 ≤ oldestScan st (List.range' 1 st.entryNum) st.currentEpoch := by
    refine oldestScan_lower st _ st.currentEpoch 6 hcur ?_
    intro i hi hne
    have hm := List.mem_range'_1.1 hi
    exact hhigh i hm.1 (by omega) hne
  set st1 := (ComputeNewSafeToReclaimEpoch st st.currentEpoch).1 with hst1
  have hsafe1 : 5 ≤ st1.safeToReclaimEpoch := by
    show 5 ≤ oldestScan st (List.range' 1 st.entryNum) st.currentEpoch - 1
    omega
  have h0b : st1.drainList.getD 0 ActionSlot.free = ActionSlot.pend 5 id0 := h0
  have hlen0 : 0 < st1.drainList.length := by
    apply lt_length_of_getD_ne_default
    rw [h0b]
    intro hcon
    cases hcon
  have hD : Drain st st.currentEpoch =
      drainScan st1.safeToReclaimEpoch (List.range drainListSize) st1 := rfl
  have hrange : List.range drainListSize = 0 :: List.range' 1 255 := by decide
  rw [hD, hrange, drainScan]
  split
  · next t id hslot =>
    rw [h0b] at hslot
    injection hslot with ht5 hid5
    subst ht5
    subst hid5
    have hpopcount : (popAt 0 id0 st1).fired.count id0 = 1 := by
      show (st1.fired ++ [id0]).count id0 = 1
      rw [count_append_self]
      have hc : st1.fired.count id0 = 0 := hcount
      omega
    have hpopno : ∀ j t2, (popAt 0 id0 st1).drainList.getD j ActionSlot.free ≠
        ActionSlot.pend t2 id0 := by
      intro j t2
      show (st1.drainList.set 0 ActionSlot.free).getD j ActionSlot.free ≠ _
      by_cases hj : j = 0
      · subst hj
        rw [getD_set_self _ _ _ _ hlen0]
        intro hcon
        cases hcon
      · rw [getD_set_ne _ _ _ _ _ (fun h => hj h.symm)]
        exact hoth j t2 hj
    rw [if_pos hsafe1]
    split
    · next hz =>
      exact ⟨hpopcount, hpopno⟩
    · next hz =>
      obtain ⟨a1, a2⟩ := noId0_drainScan id0 st1.safeToReclaimEpoch
        (List.range' 1 255) (popAt 0 id0 st1) hpopno
      exact ⟨by rw [a2]; exact hpopcount, a1⟩
  · next hslot =>
    rw [h0b] at hslot
    cases hslot

/-! ## PostInv preservation -/

theorem drain_post (id0 : Nat) (st : LightEpoch) (c : Nat)
    (hpost : PostInv id0 st) : PostInv id0 (Drain st c) := by
  obtain ⟨hno, hcount⟩ := hpost
  set st1 := (ComputeNewSafeToReclaimEpoch st c).1 with hst1
  have hD : Drain st c =
      drainScan st1.safeToReclaimEpoch (List.range drainListSize) st1 := rfl
  rw [hD]
  obtain ⟨a1, a2⟩ := noId0_drainScan id0 st1.safeToReclaimEpoch
    (List.range drainListSize) st1 hno
  exact ⟨a1, by rw [a2]; exact hcount⟩

theorem stepOp_post (id0 : Nat) (st : LightEpoch) (op : Op)
    (hpost : PostInv id0 st) (hok : postOk id0 op = true) :
    PostInv id0 (stepOp st op) := by
  obtain ⟨hno, hcount⟩ := hpost
  cases op with
  | protect i => exact ⟨hno, hcount⟩
  | unprotect i => exact ⟨hno, hcount⟩
  | bump =>
    have hB : stepOp st Op.bump =
        if 0 < ({ st with currentEpoch := st.currentEpoch + 1 } :
            LightEpoch).drainCount then
          Drain { st with currentEpoch := st.currentEpoch + 1 }
            ({ st with currentEpoch := st.currentEpoch + 1 } :
              LightEpoch).currentEpoch
        else { st with currentEpoch := st.currentEpoch + 1 } := rfl
    rw [hB]
    by_cases hd : 0 < ({ st with currentEpoch := st.currentEpoch + 1 } :
        LightEpoch).drainCount
    · rw [if_pos hd]
      exact drain_post id0 _ _ ⟨hno, hcount⟩
    · rw [if_neg hd]
      exact ⟨hno, hcount⟩
  | drain => exact drain_post id0 st st.currentEpoch ⟨hno, hcount⟩
  | protectAndDrain i =>
    have hP : stepOp st (Op.protectAndDrain i) =
        if 0 < (Protect st i).1.drainCount then
          Drain (Protect st i).1 (Protect st i).2
        else (Protect st i).1 := rfl
    rw [hP]
    by_cases hd : 0 < (Protect st i).1.drainCount
    · rw [if_pos hd]
      exact drain_post id0 _ _ ⟨hno, hcount⟩
    · rw [if_neg hd]
      exact ⟨hno, hcount⟩
  | bumpWithCallback id =>
    have hid : id ≠ id0 := by simpa [postOk] using hok
    have hR : stepOp st (Op.bumpWithCallback id) =
        registerAction (BumpCurrentEpoch st).1 ((BumpCurrentEpoch st).2 - 1) id := rfl
    rw [hR]
    have hpostB : PostInv id0 (BumpCurrentEpoch st).1 := by
      have hB : (BumpCurrentEpoch st).1 =
          if 0 < ({ st with currentEpoch := st.currentEpoch + 1 } :
              LightEpoch).drainCount then
            Drain { st with currentEpoch := st.currentEpoch + 1 }
              ({ st with currentEpoch := st.currentEpoch + 1 } :
                LightEpoch).currentEpoch
          else { st with currentEpoch := st.currentEpoch + 1 } := rfl
      rw [hB]
      by_cases hd : 0 < ({ st with currentEpoch := st.currentEpoch + 1 } :
          LightEpoch).drainCount
      · rw [if_pos hd]
        exact drain_post id0 _ _ ⟨hno, hcount⟩
      · rw [if_neg hd]
        exact ⟨hno, hcount⟩
    obtain ⟨hnoB, hcountB⟩ := hpostB
    obtain ⟨a1, a2⟩ := register_noId0 id0 (BumpCurrentEpoch st).1
      ((BumpCurrentEpoch st).2 - 1) id hnoB hid
    exact ⟨a1, by rw [a2]; exact hcountB⟩

theorem applyOps_post (id0 : Nat) (ops : List Op) :
    ∀ st : LightEpoch, PostInv id0 st →
      (∀ op ∈ ops, postOk id0 op = true) → PostInv id0 (applyOps st ops) := by
  induction ops with
  | nil =>
    intro st h _
    exact h
  | cons op rest ih =>
    intro st h hall
    exact ih _ (stepOp_post id0 st op h (hall op (List.mem_cons_self op rest)))
      (fun o ho => hall o (List.mem_cons_of_mem op ho))

/-- C2: after the scenario prefix (protect slot s at epoch 5, register
callback id0 with trigger epoch 5 via BumpCurrentEpochWithCallback, the
current epoch becoming 6), for any interleaved steps `mid` that leave slot
s protected (they touch only other slots) and register no action under
id0: the callback id0 is never executed after any prefix of `mid` (and
slot s is still protected at epoch 5); then, after Unprotect(s), the next
Drain call executes callback id0 exactly once; and no sequence of
subsequent operations ever executes it again. -/
theorem drain_callback_exactly_once (nSize s id0 : Nat)
    (hs1 : 1 ≤ s) (hs2 : s ≤ nSize) (mid post : List Op)
    (hmidok : ∀ op ∈ mid, midOk s id0 op = true)
    (hpostok : ∀ op ∈ post, postOk id0 op = true) :
    (∀ l1 l2, mid = l1 ++ l2 →
      (applyOps (C2Setup nSize s id0) l1).fired.count id0 = 0) ∧
    ((applyOps (C2Setup nSize s id0) mid).entry s).localCurrentEpoch = 5 ∧
    (applyOps (applyOps (C2Setup nSize s id0) mid)
      [Op.unprotect s, Op.drain]).fired.count id0 = 1 ∧
    (applyOps (applyOps (applyOps (C2Setup nSize s id0) mid)
      [Op.unprotect s, Op.drain]) post).fired.count id0 = 1 := by
  have hsetup := midInv_setup nSize s id0 hs1 hs2
  have hmid1 := applyOps_mid s id0 mid _ hsetup hmidok
  set st1 := applyOps (C2Setup nSize s id0) mid with hst1def
  obtain ⟨hinv, _, hsN, hsprot, hsafe, hcur, hhigh, h0, hoth, hcount⟩ := hmid1
  have hslen : s < st1.table.length := by
    apply lt_length_of_getD_ne_default st1.table s EpochEntry.init
    intro hcon
    have h5 : EpochEntry.init.localCurrentEpoch = 5 := by
      rw [LightEpoch.entry, hcon] at hsprot
      exact hsprot
    exact absurd h5 (by decide)
  refine ⟨?_, hsprot, ?_, ?_⟩
  · intro l1 l2 heq
    have hsub : ∀ op ∈ l1, midOk s id0 op = true := by
      intro op hop
      exact hmidok op (heq ▸ List.mem_append_left l2 hop)
    exact (applyOps_mid s id0 l1 _ hsetup hsub).2.2.2.2.2.2.2.2.2
  all_goals {
    have hhigh2 : ∀ i, 1 ≤ i → i ≤ (Unprotect st1 s).entryNum →
        ((Unprotect st1 s).entry i).localCurrentEpoch ≠ 0 →
        6 ≤ ((Unprotect st1 s).entry i).localCurrentEpoch := by
      intro i hi1 hi2 hne
      by_cases his : i = s
      · subst his
        rw [unprotect_entry_self st1 i hslen] at hne
        exact absurd rfl hne
      · rw [unprotect_entry_ne st1 s i (fun h => his h.symm)] at hne ⊢
        exact hhigh i hi1 hi2 his hne
    have hfire := drain_fires (Unprotect st1 s) id0 hcur hhigh2 h0 hoth hcount
    have happ2 : applyOps st1 [Op.unprotect s, Op.drain] =
        Drain (Unprotect st1 s) (Unprotect st1 s).currentEpoch := rfl
    rw [happ2]
    first
      | exact hfire.1
      | exact (applyOps_post id0 post _ ⟨hfire.2, hfire.1⟩ hpostok).2
  }

/-- C2 witness: the theorem applied on a two-slot table with slot s = 1,
callback id 7, mid steps [bump, protectAndDrain 2] and post steps
[drain, bump]. -/
theorem drain_callback_exactly_once_witness :
    (applyOps (C2Setup 2 1 7) [Op.bump]).fired.count 7 = 0 ∧
    ((applyOps (C2Setup 2 1 7)
      [Op.bump, Op.protectAndDrain 2]).entry 1).localCurrentEpoch = 5 ∧
    (applyOps (applyOps (C2Setup 2 1 7) [Op.bump, Op.protectAndDrain 2])
      [Op.unprotect 1, Op.drain]).fired.count 7 = 1 ∧
    (applyOps (applyOps (applyOps (C2Setup 2 1 7)
        [Op.bump, Op.protectAndDrain 2])
      [Op.unprotect 1, Op.drain]) [Op.drain, Op.bump]).fired.count 7 = 1 := by
  obtain ⟨h1, h2, h3, h4⟩ := drain_callback_exactly_once 2 1 7 (by decide) (by decide)
    [Op.bump, Op.protectAndDrain 2] [Op.drain, Op.bump] (by decide) (by decide)
  exact ⟨h1 [Op.bump] [Op.protectAndDrain 2] rfl, h2, h3, h4⟩

/-! ## Supporting facts for C6: the part_000 reentrant pair nests correctly -/

/-- k consecutive ReentrantProtect(i) calls (part_000 body). -/
def iterRP (i : Nat) : Nat → LightEpoch → LightEpoch
  | 0, st => st
  | k + 1, st => (ReentrantProtect (iterRP i k st) i).1

/-- m consecutive ReentrantUnprotect(i) calls. -/
def iterRU (i : Nat) : Nat → LightEpoch → LightEpoch
  | 0, st => st
  | m + 1, st => ReentrantUnprotect (iterRU i m st) i

theorem reentrantProtect_protected (st : LightEpoch) (i : Nat)
    (h : (st.entry i).localCurrentEpoch ≠ Unprotected) :
    (ReentrantProtect st i).1 =
      st.setEntry i { st.entry i with reentrant := (st.entry i).reentrant + 1 } := by
  rw [ReentrantProtect]
  split
  · rfl
  · next hc => exact absurd h hc

theorem reentrantProtect_fresh (st : LightEpoch) (i : Nat)
    (h : (st.entry i).localCurrentEpoch = Unprotected) :
    (ReentrantProtect st i).1 =
      st.setEntry i
        { st.entry i with
            reentrant := (st.entry i).reentrant + 1
            localCurrentEpoch := st.currentEpoch } := by
  rw [ReentrantProtect]
  split
  · next hc => exact absurd h hc
  · rfl

theorem reentrantUnprotect_inner (st : LightEpoch) (i : Nat)
    (h : (st.entry i).reentrant - 1 ≠ 0) :
    ReentrantUnprotect st i =
      st.setEntry i { st.entry i with reentrant := (st.entry i).reentrant - 1 } := by
  rw [ReentrantUnprotect]
  split
  · next hc => exact absurd hc h
  · rfl

theorem reentrantUnprotect_outer (st : LightEpoch) (i : Nat)
    (h : (st.entry i).reentrant - 1 = 0) :
    ReentrantUnprotect st i =
      st.setEntry i
        { st.entry i with
            reentrant := (st.entry i).reentrant - 1
            localCurrentEpoch := Unprotected } := by
  rw [ReentrantUnprotect]
  split
  · rfl
  · next hc => exact absurd h hc

theorem iterRP_entry (i : Nat) (st : LightEpoch) (hlen : i < st.table.length)
    (hfresh : (st.entry i).localCurrentEpoch = 0) (hcur : 1 ≤ st.currentEpoch) :
    ∀ k, 1 ≤ k →
      (iterRP i k st).entry i =
        { localCurrentEpoch := st.currentEpoch,
          reentrant := (st.entry i).reentrant + k,
          atomicPhaseFinished := (st.entry i).atomicPhaseFinished } ∧
      (iterRP i k st).table.length = st.table.length := by
  intro k
  induction k with
  | zero =>
    intro h
    exact absurd h (by decide)
  | succ n ih =>
    intro _
    by_cases hn : 1 ≤ n
    · obtain ⟨he, hl⟩ := ih hn
      have hstep : iterRP i (n + 1) st = (ReentrantProtect (iterRP i n st) i).1 := rfl
      have hne : ((iterRP i n st).entry i).localCurrentEpoch ≠ Unprotected := by
        rw [he]
        show st.currentEpoch ≠ 0
        omega
      rw [hstep, reentrantProtect_protected _ _ hne]
      constructor
      · show ((iterRP i n st).table.set i _).getD i _ = _
        rw [getD_set_self _ _ _ _ (by rw [hl]; exact hlen), he]
        rfl
      · show ((iterRP i n st).table.set i _).length = _
        rw [List.length_set]
        exact hl
    · have hn0 : n = 0 := by omega
      subst hn0
      have hstep : iterRP i 1 st = (ReentrantProtect st i).1 := rfl
      rw [hstep, reentrantProtect_fresh st i hfresh]
      constructor
      · show (st.table.set i _).getD i _ = _
        rw [getD_set_self _ _ _ _ hlen]
      · show (st.table.set i _).length = _
        rw [List.length_set]

theorem iterRU_entry (i : Nat) :
    ∀ (m : Nat) (st : LightEpoch) (epochVal depth phase : Nat),
      i < st.table.length →
      st.entry i =
        { localCurrentEpoch := epochVal
          reentrant := depth
          atomicPhaseFinished := phase } →
      m < depth →
      (iterRU i m st).entry i =
        { localCurrentEpoch := epochVal
          reentrant := depth - m
          atomicPhaseFinished := phase } ∧
      (iterRU i m st).table.length = st.table.length := by
  intro m
  induction m with
  | zero =>
    intro st epochVal depth phase hlen he _
    refine ⟨?_, rfl⟩
    show st.entry i = _
    rw [he]
    rfl
  | succ n ih =>
    intro st epochVal depth phase hlen he hm
    obtain ⟨he2, hl2⟩ := ih st epochVal depth phase hlen he (by omega)
    have hstep : iterRU i (n + 1) st = ReentrantUnprotect (iterRU i n st) i := rfl
    have hr : ((iterRU i n st).entry i).reentrant - 1 ≠ 0 := by
      rw [he2]
      show depth - n - 1 ≠ 0
      omega
    rw [hstep, reentrantUnprotect_inner _ _ hr]
    constructor
    · show ((iterRU i n st).table.set i _).getD i _ = _
      rw [getD_set_self _ _ _ _ (by rw [hl2]; exact hlen), he2]
      show ({ localCurrentEpoch := epochVal
              reentrant := depth - n - 1
              atomicPhaseFinished := phase } : EpochEntry) = _
      rw [show depth - n - 1 = depth - (n + 1) from by omega]
    · show ((iterRU i n st).table.set i _).length = _
      rw [List.length_set]
      exact hl2

/-- C6 (supporting, part_000 copy): starting from a state whose slot i is
unprotected with reentrant depth 0, after k >= 1 ReentrantProtect(i) calls
the slot is protected at the current epoch across the first k-1
ReentrantUnprotect(i) calls, and exactly the k-th ReentrantUnprotect(i)
resets localCurrentEpoch to the unprotected sentinel 0. -/
theorem reentrant_partZero_nesting (st : LightEpoch) (i k m : Nat)
    (hlen : i < st.table.length)
    (hfresh : (st.entry i).localCurrentEpoch = 0)
    (hdepth : (st.entry i).reentrant = 0)
    (hcur : 1 ≤ st.currentEpoch) (hk : 1 ≤ k) :
    (m < k →
      ((iterRU i m (iterRP i k st)).entry i).localCurrentEpoch = st.currentEpoch) ∧
    ((iterRU i k (iterRP i k st)).entry i).localCurrentEpoch = 0 := by
  obtain ⟨he, hl⟩ := iterRP_entry i st hlen hfresh hcur k hk
  rw [hdepth, Nat.zero_add] at he
  have hlenP : i < (iterRP i k st).table.length := by
    rw [hl]
    exact hlen
  constructor
  · intro hm
    obtain ⟨he2, _⟩ := iterRU_entry i m (iterRP i k st) st.currentEpoch
      k (st.entry i).atomicPhaseFinished hlenP he hm
    rw [he2]
  · have hk1 : k - 1 < k := by omega
    obtain ⟨he2, hl2⟩ := iterRU_entry i (k - 1) (iterRP i k st) st.currentEpoch
      k (st.entry i).atomicPhaseFinished hlenP he hk1
    have hstep : iterRU i k (iterRP i k st) =
        ReentrantUnprotect (iterRU i (k - 1) (iterRP i k st)) i := by
      rw [show k = (k - 1) + 1 from by omega]
      rfl
    have hr : ((iterRU i (k - 1) (iterRP i k st)).entry i).reentrant - 1 = 0 := by
      rw [he2]
      show k - (k - 1) - 1 = 0
      omega
    rw [hstep, reentrantUnprotect_outer _ _ hr]
    show ((((iterRU i (k - 1) (iterRP i k st)).table.set i _).getD i
      EpochEntry.init)).localCurrentEpoch = 0
    rw [getD_set_self _ _ _ _ (by rw [hl2]; exact hlenP)]
    rfl

/-- C6 (supporting witness): the nesting theorem at slot 1 of a fresh
one-slot table with k = 3 protects and m = 2 inner unprotects. -/
theorem reentrant_partZero_nesting_witness :
    ((iterRU 1 2 (iterRP 1 3 (NewLightEpoch 1))).entry 1).localCurrentEpoch = 1 ∧
    ((iterRU 1 3 (iterRP 1 3 (NewLightEpoch 1))).entry 1).localCurrentEpoch = 0 := by
  obtain ⟨h1, h2⟩ := reentrant_partZero_nesting (NewLightEpoch 1) 1 3 2
    (by decide) (by decide) (by decide) (by decide) (by decide)
  exact ⟨h1 (by decide), h2⟩

end Faster

namespace EpochGo

open Faster

/-- ReentrantProtect of src/faster/epoch.go lines 275-284.  Unlike the
part_000 body, the early return for an already-protected slot happens
before the reentrant counter is incremented. -/
def ReentrantProtect (st : LightEpoch) (entryIdx : Nat) : LightEpoch × Nat :=
  let e := st.entry entryIdx
  if e.localCurrentEpoch ≠ Unprotected then
    (st, e.localCurrentEpoch)
  else
    (st.setEntry entryIdx
      { e with localCurrentEpoch := st.currentEpoch, reentrant := e.reentrant + 1 },
     st.currentEpoch)

/-- IsSafeToReclaim of src/faster/epoch.go lines 382-384: a strict
comparison, expectedEpoch < cached safe epoch. -/
def IsSafeToReclaim (st : LightEpoch) (expectedEpoch : Nat) : Bool :=
  decide (expectedEpoch < st.safeToReclaimEpoch)

/-- SpinWaitForSafeToReclaim of src/faster/epoch.go lines 373-380, with
explicit gas: each iteration recomputes the safe epoch and exits as soon as
the target is strictly above the stored safe epoch (the Go condition
`safeToReclaimEpoch > atomic.LoadUint64(&epoch.atomicSafeToReclaimEpoch)`
breaks the loop). -/
def spinWaitGas : Nat → LightEpoch → Nat → Nat → Option LightEpoch
  | 0, _, _, _ => none
  | gas + 1, st, currentEpoch, target =>
    let st1 := (ComputeNewSafeToReclaimEpoch st currentEpoch).1
    if st1.safeToReclaimEpoch < target then some st1
    else spinWaitGas gas st1 currentEpoch target

end EpochGo

namespace HashV1

/-- HashBucketEntry packing of src/faster/epoch.go lines 482-515:
| 1-bit tentative | 1-bit reserved | 14-bit tag | 48-bit address |.
The entry is a uint64 word, modelled as a Nat kept below 2^64; Go wrapping
additions carry an explicit % 2^64. -/
def GetAddress (e : Nat) : Nat := e &&& (1 <<< 48 - 1)

def SetAddress (e a : Nat) : Nat :=
  ((e &&& (0xffff <<< 48)) + (a &&& (1 <<< 48 - 1))) % 2 ^ 64

def GetTag (e : Nat) : Nat := (e >>> 48) &&& 0x3fff

def SetTag (e t : Nat) : Nat :=
  ((e &&& (1 <<< 48 - 1)) + (e &&& (1 <<< 63)) + ((t &&& 0x3fff) <<< 48)) % 2 ^ 64

def IsTentative (e : Nat) : Bool := decide (e >>> 63 ≠ 0)

def SetTentative (e : Nat) : Nat := e ||| (1 <<< 63)

end HashV1

namespace HashV2

/-- HashBucketEntry packing of src/faster/epoch.go lines 626-659, whose
comment declares | 48-bit address | 14-bit tag | 1-bit reserved |
1-bit tentative |.  The tag argument is a uint16 in Go, hence the % 2^16
on the shifted tag. -/
def GetAddress (e : Nat) : Nat := e >>> 16

def SetAddress (e a : Nat) : Nat :=
  ((a <<< 16) % 2 ^ 64 + (e &&& 0xff)) % 2 ^ 64

def GetTag (e : Nat) : Nat := (e &&& 0xff) >>> 2

def SetTag (e t : Nat) : Nat :=
  ((e &&& 0xffffff00) + (e &&& 0x3) + ((t <<< 2) % 2 ^ 16 &&& 0xff)) % 2 ^ 64

def IsTentative (e : Nat) : Bool := decide (e &&& 0x1 ≠ 0)

def SetTentative (e : Nat) : Nat := e ||| 0x1

end HashV2

namespace Faster

/-- alignedAlloc (src/faster/aligned_alloc.go lines 32-44).  The address of
the first byte of the Go backing buffer is the runtime's choice and enters
as the parameter `base`; the model returns the buffer length together with
the aligned start address (the Go function returns the buffer and the
start).  Degenerate arguments return the empty result (nil buffer of
length 0, start 0). -/
def alignedAlloc (alignment size : Int) (base : Nat) : Nat × Nat :=
  if alignment ≤ 0 ∨ size ≤ 0 then (0, 0)
  else
    let a := alignment.toNat
    let s := size.toNat
    let start := if base % a ≠ 0 then base + (a - base % a) else base
    (s + a - 1, start)

end Faster

namespace PartZeroTable

open Faster

/-- CacheLineSize (part_000 line 35). -/
def CacheLineSize : Nat := 64

/-- The table-pointer initialisation of part_000's NewLightEpoch (lines
187-193): a buffer of (size+2)*CacheLineSize bytes is allocated at some
aligned address `start`, and the loop body
`epoch.table[i] = (*epochEntry)(unsafe.Pointer(start + uintptr(CacheLineSize)))`
stores the same address start + CacheLineSize into every table cell. -/
def mkTableAddr (size start : Nat) : List Nat :=
  List.replicate (size + 2) (start + CacheLineSize)

/-- part_000's LightEpoch table as it actually exists: a list of pointers
(addresses) into a byte buffer, plus the buffer contents as a map from
addresses to epochEntry values. -/
structure PtrLightEpoch where
  currentEpoch : Nat
  tableAddr : List Nat
  mem : Nat → EpochEntry

/-- The constructor state of part_000's NewLightEpoch for a buffer placed
at `start`: epoch counter 1 and every entry initialised. -/
def PtrNew (size start : Nat) : PtrLightEpoch :=
  { currentEpoch := 1
    tableAddr := mkTableAddr size start
    mem := fun _ => EpochEntry.init }

/-- Dereference table[i]. -/
def PtrEntry (st : PtrLightEpoch) (i : Nat) : EpochEntry :=
  st.mem (st.tableAddr.getD i 0)

/-- Protect (part_000 lines 232-236) acting through the pointer table:
writes the current epoch through the address stored in table[entryIdx]. -/
def PtrProtect (st : PtrLightEpoch) (entryIdx : Nat) : PtrLightEpoch :=
  let a := st.tableAddr.getD entryIdx 0
  let e := st.mem a
  { st with mem := Function.update st.mem a { e with localCurrentEpoch := st.currentEpoch } }

end PartZeroTable

namespace Faster

/-! ## C3: the part_000 table constructor aliases every slot -/

/-- C3 (code bug witnessed): for the LightEpoch built by part_000's
NewLightEpoch, the table slots are not distinct entries.  Concretely, for
NewLightEpoch(2) with the entry buffer at address 0, every table pointer
holds address 0 + CacheLineSize, so Protect(1) (which stores currentEpoch
= 1 through table[1]) also changes slot 2's localCurrentEpoch from 0 to 1,
contradicting the claim that slot j is left unchanged for j different from
i.  (The intended layout start + i*CacheLineSize, and the value-slice table
of src/faster/epoch.go, do keep the slots distinct.) -/
theorem partZero_table_aliasing_bug :
    (PartZeroTable.PtrEntry (PartZeroTable.PtrNew 2 0) 2).localCurrentEpoch = 0 ∧
    (PartZeroTable.PtrEntry
      (PartZeroTable.PtrProtect (PartZeroTable.PtrNew 2 0) 1) 2).localCurrentEpoch = 1 ∧
    (PartZeroTable.PtrNew 2 0).tableAddr.getD 1 0 =
      (PartZeroTable.PtrNew 2 0).tableAddr.getD 2 0 := by
  refine ⟨rfl, ?_, rfl⟩
  simp [PartZeroTable.PtrEntry, PartZeroTable.PtrProtect, PartZeroTable.PtrNew,
    PartZeroTable.mkTableAddr, Function.update]

/-! ## C4: IsSafeToReclaim in the two copies -/

/-- A reachable state with safeToReclaimEpoch = 2: two bumps (no actions
pending, so no drain) followed by a safety scan at epoch 3 with no
protected slot. -/
def c4State : LightEpoch :=
  (ComputeNewSafeToReclaimEpoch
    (BumpCurrentEpoch (BumpCurrentEpoch (NewLightEpoch 1)).1).1 3).1

/-- C4 (counterexample): in the state with cached safeToReclaimEpoch = 2,
the src/faster/epoch.go IsSafeToReclaim returns false on expectedEpoch = 2
even though safeToReclaimEpoch is at least 2, so IsSafeToReclaim is not
the claimed "true iff safeToReclaimEpoch >= E" for that copy. -/
theorem isSafeToReclaimGo_boundary_counterexample :
    c4State.safeToReclaimEpoch = 2 ∧ EpochGo.IsSafeToReclaim c4State 2 = false := by
  constructor <;> decide

/-- C4 (amended): the part_000 IsSafeToReclaim returns true iff the cached
safeToReclaimEpoch is at least the expected epoch, while the
src/faster/epoch.go copy uses a strict comparison and returns true iff the
cached safeToReclaimEpoch strictly exceeds it; whenever the strict copy
reports reclaimable, so does the part_000 copy. -/
theorem isSafeToReclaim_characterization (st : LightEpoch) (expectedEpoch : Nat) :
    (IsSafeToReclaim st expectedEpoch = true ↔
      expectedEpoch ≤ st.safeToReclaimEpoch) ∧
    (EpochGo.IsSafeToReclaim st expectedEpoch = true ↔
      expectedEpoch < st.safeToReclaimEpoch) ∧
    (EpochGo.IsSafeToReclaim st expectedEpoch = true →
      IsSafeToReclaim st expectedEpoch = true) := by
  refine ⟨by simp [IsSafeToReclaim], by simp [EpochGo.IsSafeToReclaim], ?_⟩
  simp [IsSafeToReclaim, EpochGo.IsSafeToReclaim]
  omega

/-! ## C5: SpinWaitForSafeToReclaim in the two copies -/

/-- C5 (supporting, part_000 copy): whenever the part_000
SpinWaitForSafeToReclaim loop exits, the safe-to-reclaim epoch just
computed by ComputeNewSafeToReclaimEpoch has reached the target; the loop
never exits while the computed safe epoch is below the target. -/
theorem spinWait_partZero_exits_only_at_target (gas : Nat) (st : LightEpoch)
    (currentEpoch target : Nat) (stFin : LightEpoch)
    (h : spinWaitGas gas st currentEpoch target = some stFin) :
    target ≤ stFin.safeToReclaimEpoch := by
  induction gas generalizing st with
  | zero => exact absurd h (by simp [spinWaitGas])
  | succ n ih =>
    rw [spinWaitGas] at h
    by_cases hc : target ≤ (ComputeNewSafeToReclaimEpoch st currentEpoch).2
    · rw [if_pos hc] at h
      cases h
      exact hc
    · rw [if_neg hc] at h
      exact ih _ h

set_option maxRecDepth 4000 in
/-- C5 (supporting witness): the part_000 loop exit theorem applied at a
concrete input: on a fresh table with no protected slot, spinning with
currentEpoch = 5 for target 3 exits with computed safe epoch 4 >= 3. -/
theorem spinWait_partZero_exits_only_at_target_witness :
    spinWaitGas 1 (NewLightEpoch 1) 5 3 =
      some (ComputeNewSafeToReclaimEpoch (NewLightEpoch 1) 5).1 ∧
    3 ≤ ((ComputeNewSafeToReclaimEpoch (NewLightEpoch 1) 5).1).safeToReclaimEpoch :=
  ⟨rfl, spinWait_partZero_exits_only_at_target 1 (NewLightEpoch 1) 5 3 _ rfl⟩

/-- C5 (code bug witnessed): the src/faster/epoch.go
SpinWaitForSafeToReclaim breaks out of its loop when the target is still
ABOVE the stored safe epoch.  On a fresh table with no protected slot
(computed safe epoch 4), spinning with currentEpoch = 5 for target 10
returns on the very first iteration with safe epoch 4 < 10 — it returns
while the computed safe epoch is below the target, which the claim
forbids. -/
theorem spinWaitGo_returns_below_target :
    (EpochGo.spinWaitGas 1 (NewLightEpoch 1) 5 10).map
        LightEpoch.safeToReclaimEpoch = some 4 ∧ 4 < 10 := by
  constructor <;> decide

/-! ## C6: ReentrantProtect in the two copies -/

/-- C6 (code bug witnessed): with the src/faster/epoch.go ReentrantProtect,
two nested ReentrantProtect(1) calls leave the reentrant depth at 1 (the
early return for an already-protected slot skips the increment), so the
FIRST ReentrantUnprotect(1) already resets localCurrentEpoch to the
unprotected sentinel 0 — the slot does not remain protected across the
first k-1 = 1 unprotects as claimed. -/
theorem reentrantProtectGo_clears_on_first_unprotect :
    (((EpochGo.ReentrantProtect (EpochGo.ReentrantProtect
        (NewLightEpoch 1) 1).1 1).1).entry 1).reentrant = 1 ∧
    ((ReentrantUnprotect (EpochGo.ReentrantProtect (EpochGo.ReentrantProtect
        (NewLightEpoch 1) 1).1 1).1 1).entry 1).localCurrentEpoch = 0 := by
  constructor <;> decide

/-! ## C7: the two HashBucketEntry packings -/

/-- C7 (code bug witnessed): the round-trip claim fails for the second
packing (src/faster/epoch.go lines 626-659).  With address 2^20 < 2^48 and
tag 0 < 2^14, SetAddress(2^20) then SetTag(0) yields GetAddress() = 0
instead of 2^20: SetTag masks the old word with 0xffffff00, destroying the
address bits its own layout comment places in the high 48 bits.  Likewise
tag 2048 < 2^14 comes back as GetTag() = 0 after SetAddress(5);
SetTag(2048).  The first packing (lines 482-515) passes the same inputs. -/
theorem hashV2_packing_breaks_roundtrip :
    HashV2.GetAddress (HashV2.SetTag (HashV2.SetAddress 0 (2 ^ 20)) 0) = 0 ∧
    (2 ^ 20 : Nat) ≠ 0 ∧
    HashV2.GetTag (HashV2.SetTag (HashV2.SetAddress 0 5) 2048) = 0 ∧
    (2048 : Nat) ≠ 0 ∧
    HashV1.GetAddress (HashV1.SetTag (HashV1.SetAddress 0 (2 ^ 20)) 0) = 2 ^ 20 ∧
    HashV1.GetTag (HashV1.SetTag (HashV1.SetAddress 0 (2 ^ 20)) 2048) = 2048 := by
  refine ⟨by decide, by decide, by decide, by decide, by decide, by decide⟩

/-! ## C8: MarkAndCheckIfFinished / FinishThreadPhase skips slot N -/

/-- C8 (code bug witnessed): for NewLightEpoch(2), protect usable slot 2
(localCurrentEpoch becomes 1, phase marker still RestPhase = 6), then call
MarkAndCheckIfFinished(1, InProgressPhase = 3): the scan loop
`for i := 1; i < entryNum; i++` only checks slot 1, so the call returns
true even though the currently protected usable slot 2 has phase marker
6, not 3 — the claim requires false.  (FindAndReserveEmptyEntry hands out
slots 1..entryNum and ComputeNewSafeToReclaimEpoch scans i <= entryNum, so
slot entryNum is a usable protected slot that the phase scan misses.) -/
theorem markAndCheck_skips_slot_entryNum :
    ((((Protect (NewLightEpoch 2) 2).1).entry 2).localCurrentEpoch ≠ 0) ∧
    ((((Protect (NewLightEpoch 2) 2).1).entry 2).atomicPhaseFinished ≠ InProgressPhase) ∧
    (MarkAndCheckIfFinished (Protect (NewLightEpoch 2) 2).1 1 InProgressPhase).2 = true := by
  refine ⟨by decide, by decide, by decide⟩

/-! ## C9: the aligned allocator contract -/

/-- C9: for alignment > 0 and size > 0, alignedAlloc returns a backing
buffer of exactly size + alignment - 1 bytes and a start address that is a
multiple of the alignment, lies at or after the buffer's first byte `base`,
and leaves at least `size` usable bytes before the buffer's end; for
degenerate arguments it returns the empty result (nil buffer, start 0). -/
theorem alignedAlloc_contract (alignment size : Int) (base : Nat) :
    (0 < alignment → 0 < size →
      (alignedAlloc alignment size base).1 = size.toNat + alignment.toNat - 1 ∧
      (alignedAlloc alignment size base).2 % alignment.toNat = 0 ∧
      base ≤ (alignedAlloc alignment size base).2 ∧
      (alignedAlloc alignment size base).2 + size.toNat ≤
        base + (alignedAlloc alignment size base).1) ∧
    (alignment ≤ 0 ∨ size ≤ 0 → alignedAlloc alignment size base = (0, 0)) := by
  constructor
  · intro ha hs
    have hcond : ¬(alignment ≤ 0 ∨ size ≤ 0) := by omega
    have ha2 : 0 < alignment.toNat := by omega
    have hlen : (alignedAlloc alignment size base).1 =
        size.toNat + alignment.toNat - 1 := by
      simp only [alignedAlloc, if_neg hcond]
    have hstart : (alignedAlloc alignment size base).2 =
        if base % alignment.toNat ≠ 0 then
          base + (alignment.toNat - base % alignment.toNat)
        else base := by
      simp only [alignedAlloc, if_neg hcond]
    rw [hlen, hstart]
    by_cases hb : base % alignment.toNat = 0
    · rw [if_neg (by simp [hb])]
      refine ⟨rfl, hb, Nat.le_refl base, ?_⟩
      omega
    · rw [if_pos hb]
      have hr : base % alignment.toNat < alignment.toNat := Nat.mod_lt base ha2
      have hd := Nat.div_add_mod base alignment.toNat
      have heq : base + (alignment.toNat - base % alignment.toNat) =
          alignment.toNat * (base / alignment.toNat + 1) := by
        rw [Nat.mul_add, Nat.mul_one]
        omega
      refine ⟨rfl, ?_, Nat.le_add_right base _, ?_⟩
      · rw [heq, Nat.mul_mod_right]
      · omega
  · intro h
    simp [alignedAlloc, h]

/-- C9 witness: the contract applied to alignment 64, size 100, buffer at
address 30, and to the degenerate input alignment 0. -/
theorem alignedAlloc_contract_witness :
    (alignedAlloc 64 100 30).2 % (64 : Int).toNat = 0 ∧
    30 ≤ (alignedAlloc 64 100 30).2 ∧
    (alignedAlloc 64 100 30).2 + (100 : Int).toNat ≤ 30 + (alignedAlloc 64 100 30).1 ∧
    alignedAlloc 0 5 7 = (0, 0) := by
  obtain ⟨h1, h2⟩ := alignedAlloc_contract 64 100 30
  obtain ⟨a1, a2, a3, a4⟩ := h1 (by decide) (by decide)
  exact ⟨a2, a3, a4, (alignedAlloc_contract 0 5 7).2 (by decide)⟩

/-! ## C10: FindAndReserveEmptyEntry -/

/-- One probe pass covers every usable slot: for every slot j in 1..N there
is a probe number i < N with probeIdx N startIdx i = j. -/
theorem probe_hits (n startIdx j : Nat) (h1 : 1 ≤ j) (h2 : j ≤ n) :
    ∃ i, i < n ∧ probeIdx n startIdx i = j := by
  have hn : 0 < n := Nat.lt_of_lt_of_le h1 h2
  refine ⟨(j - 1 + (n - startIdx % n)) % n, Nat.mod_lt _ hn, ?_⟩
  unfold probeIdx
  have hr : startIdx % n < n := Nat.mod_lt _ hn
  rw [Nat.add_mod_mod]
  have hd := Nat.div_add_mod startIdx n
  have e2 : startIdx + (j - 1 + (n - startIdx % n)) =
      n * (startIdx / n + 1) + (j - 1) := by
    rw [Nat.mul_add, Nat.mul_one]
    omega
  rw [e2, Nat.mul_add_mod, Nat.mod_eq_of_lt (by omega : j - 1 < n)]
  omega

/-- C10: whenever some usable slot j in 1..entryNum has its in-use flag
free (tableUsed[j] = 0), FindAndReserveEmptyEntry returns the index of such
a slot with that slot's flag flipped to 1 and every other flag (and every
other field of the state) unchanged; and when every usable slot is in use,
the probe scan finds nothing — the Go code's iteration counter then reaches
4*entryNum after its fourth pass, exceeding the 3*entryNum bound, so the
call panics instead of returning normally or spinning forever. -/
theorem findAndReserveEmptyEntry_spec (st : LightEpoch) (startIdx : Nat) :
    ((∃ j, 1 ≤ j ∧ j ≤ st.entryNum ∧ st.tableUsed.getD j 1 = 0) →
      ∃ idx st2, FindAndReserveEmptyEntry st startIdx = some (idx, st2) ∧
        1 ≤ idx ∧ idx ≤ st.entryNum ∧
        st.tableUsed.getD idx 1 = 0 ∧
        st2.tableUsed.getD idx 1 = 1 ∧
        (∀ j, j ≠ idx → st2.tableUsed.getD j 1 = st.tableUsed.getD j 1) ∧
        st2.table = st.table ∧ st2.entryNum = st.entryNum ∧
        st2.currentEpoch = st.currentEpoch ∧
        st2.safeToReclaimEpoch = st.safeToReclaimEpoch ∧
        st2.drainList = st.drainList ∧ st2.fired = st.fired) ∧
    (1 ≤ st.entryNum →
      (∀ j, 1 ≤ j → j ≤ st.entryNum → st.tableUsed.getD j 1 ≠ 0) →
      FindAndReserveEmptyEntry st startIdx = none ∧
      3 * st.entryNum < 4 * st.entryNum) := by
  constructor
  · rintro ⟨j, hj1, hj2, hjfree⟩
    obtain ⟨i, hiN, hpi⟩ := probe_hits st.entryNum startIdx j hj1 hj2
    have hmem : i ∈ List.range st.entryNum := List.mem_range.2 hiN
    have hpred : (st.tableUsed.getD (probeIdx st.entryNum startIdx i) 1 == 0) = true := by
      rw [hpi, hjfree]
      rfl
    have hsome : ((List.range st.entryNum).find? fun i =>
        st.tableUsed.getD (probeIdx st.entryNum startIdx i) 1 == 0).isSome := by
      rw [List.find?_isSome]
      exact ⟨i, hmem, hpred⟩
    obtain ⟨i0, hfind⟩ := Option.isSome_iff_exists.1 hsome
    have hp0pre := List.find?_some hfind
    have hp0 : st.tableUsed.getD (probeIdx st.entryNum startIdx i0) 1 = 0 := by
      simpa using hp0pre
    have hi0 : i0 ∈ List.range st.entryNum := List.mem_of_find?_eq_some hfind
    have hi0N : i0 < st.entryNum := List.mem_range.1 hi0
    have hN : 0 < st.entryNum := Nat.lt_of_lt_of_le hj1 hj2
    have hlt : probeIdx st.entryNum startIdx i0 < st.tableUsed.length := by
      apply lt_length_of_getD_ne_default
      rw [hp0]
      omega
    refine ⟨probeIdx st.entryNum startIdx i0,
      { st with tableUsed := st.tableUsed.set (probeIdx st.entryNum startIdx i0) 1 },
      ?_, ?_, ?_, hp0, ?_, ?_, rfl, rfl, rfl, rfl, rfl, rfl⟩
    · simp only [FindAndReserveEmptyEntry, hfind]
    · unfold probeIdx
      omega
    · unfold probeIdx
      have := Nat.mod_lt (startIdx + i0) hN
      omega
    · exact getD_set_self st.tableUsed _ 1 1 hlt
    · intro j2 hj2ne
      exact getD_set_ne st.tableUsed _ j2 1 1 (fun h => hj2ne h.symm)
  · intro hN hall
    constructor
    · have hnone : ((List.range st.entryNum).find? fun i =>
          st.tableUsed.getD (probeIdx st.entryNum startIdx i) 1 == 0) = none := by
        apply List.find?_eq_none.2
        intro i hi
        have hiN : i < st.entryNum := List.mem_range.1 hi
        have h1 : 1 ≤ probeIdx st.entryNum startIdx i := by
          unfold probeIdx
          omega
        have h2 : probeIdx st.entryNum startIdx i ≤ st.entryNum := by
          unfold probeIdx
          have := Nat.mod_lt (startIdx + i) (by omega : 0 < st.entryNum)
          omega
        have hne := hall _ h1 h2
        rw [List.getD_eq_getElem?_getD] at hne
        simpa using hne
      simp only [FindAndReserveEmptyEntry, hnone]
    · omega

/-- C10 witness: a fresh two-slot table with random start 5 reserves a
slot, and a one-slot table whose only usable slot is already in use makes
the probe scan fail (the panic case). -/
theorem findAndReserveEmptyEntry_spec_witness :
    (FindAndReserveEmptyEntry (NewLightEpoch 2) 5).isSome = true ∧
    FindAndReserveEmptyEntry
      { NewLightEpoch 1 with tableUsed := [1, 1, 1] } 0 = none := by
  constructor
  · obtain ⟨idx, st2, hf, hrest⟩ :=
      (findAndReserveEmptyEntry_spec (NewLightEpoch 2) 5).1 ⟨1, by decide⟩
    rw [hf]
    rfl
  · exact ((findAndReserveEmptyEntry_spec
      { NewLightEpoch 1 with tableUsed := [1, 1, 1] } 0).2 (by decide)
      (fun j h1 h2 => by
        have he : ({ NewLightEpoch 1 with tableUsed := [1, 1, 1] } :
            LightEpoch).entryNum = 1 := rfl
        rw [he] at h2
        have hj : j = 1 := by omega
        subst hj
        decide)).1

end Faster
